import Mathlib

/-!
Shallow embedding of the pane-composition engine of the PrestoEdit editor
(`src/main.rs` and its in-progress module split under `src/buffer/` and
`src/buffers/`; the two copies agree on every operation modelled here).

Conventions of the embedding:
* Rust `i32` fields are modelled as `Int`, `usize` as `Nat`.
* The trait-object tree `Buffer`/`BufferFuncs` is modelled as the closed
  inductive `Pane` over the variants actually implemented by the source
  (`EmptyBuffer`, `FileBuffer`, `HexBuffer`, `TreeBuffer`, `HighlightBuffer`,
  `LogViewBuffer`, `SplitBuffer`, `TabbedBuffer`).
* Methods that mutate `self` become functions returning the new node
  (state-passing); methods that mutate and return a value return a pair.
* The LSP side channel (`lsp.close_file`, `lsp.open_file`, `lsp.save_file`)
  is a fire-and-forget notification with no influence on the tree; it is
  dropped from the model.
* The per-node string-variable map (`Buffer.vars`) is not touched by any of
  the operations verified here (`close`, `nav`, `set_focused`, `update`,
  `Measurement::get_value`, `run_command` for Open/Split/Close) except that
  fresh nodes start with an empty map; it is omitted from the state.
* Filesystem reads (`read_to_string`, `read`, `read_dir`) are modelled as
  explicit `Option`-valued oracles passed to `update`; `none` models a read
  error.  A Rust `unwrap` on such a result is modelled by making the whole
  operation return `Option` (`none` = panic).
-/

namespace PrestoEdit

/-- `math.rs` / `main.rs`: 2-d integer vector (`i32` coordinates). -/
structure Vector where
  x : Int
  y : Int
  deriving DecidableEq, Repr

/-- `highlight.rs`: color tokens (payload of the palette pane). -/
inductive Color where
  | invalid : Color
  | base16 (v : Nat) : Color
  | hexc (r g b : Nat) : Color
  | link (s : String) : Color
  deriving DecidableEq, Repr

/-- `math.rs` (and the identical copy in `main.rs`): a relative split
position.  `Percent` carries an `f32` in the source; it is modelled as a
rational, which is exact for the factor values used in the theorems below. -/
inductive Measurement where
  | percent (pc : ℚ) : Measurement
  | chars (val : Nat) : Measurement
  | negChars (val : Nat) : Measurement
  | pixels (val : Nat) : Measurement
  | negPixels (val : Nat) : Measurement
  deriving DecidableEq, Repr

/-- `Measurement::get_value`.  The `Percent` arm is Rust's
`(max as f32 * pc) as usize`: a float-to-usize cast truncates toward zero
and saturates at `0` for negative values, i.e. `Int.toNat ∘ Int.floor`
on the exact product. -/
def Measurement.get_value (m : Measurement) (max char_size : Nat) : Nat :=
  match m with
  | .percent pc => (Int.floor ((max : ℚ) * pc)).toNat
  | .chars val => Min.min (val * char_size) max
  | .negChars val => max - Min.min (val * char_size) max
  | .pixels val => Min.min val max
  | .negPixels val => max - Min.min val max

/-- `SplitDir` (`main.rs` / `buffer/split.rs`). -/
inductive SplitDir where
  | horizontal
  | vertical
  deriving DecidableEq, Repr

/-- `NavDir` (`main.rs` / `buffer/mod.rs`). -/
inductive NavDir where
  | up
  | down
  | left
  | right
  deriving DecidableEq, Repr

/-- `FileMode` (`main.rs` / `buffers/file.rs`). -/
inductive FileMode where
  | normal
  | insert
  deriving DecidableEq, Repr

/-- `HexMode` (`main.rs` / `buffer/hex.rs`). -/
inductive HexMode where
  | normal
  | insert
  deriving DecidableEq, Repr

/-- `FileBuffer` state (`main.rs` / `buffers/file.rs`). -/
structure FileBuffer where
  filename : String
  cached : Bool
  data : List String
  pos : Vector
  scroll : Int
  mode : FileMode
  height : Int
  charSize : Vector
  deriving DecidableEq, Repr

/-- `HexBuffer` state (`main.rs` / `buffer/hex.rs`); `data` is the `Vec<u8>`
byte list. -/
structure HexBuffer where
  filename : String
  cached : Bool
  data : List Nat
  pos : Vector
  scroll : Int
  mode : HexMode
  height : Int
  charSize : Vector
  deriving DecidableEq, Repr

/-- `TreeBuffer` state (`main.rs` / `buffers/tree.rs`): a directory path and
the cached `(label, name)` listing. -/
structure TreeBuffer where
  path : String
  cache : List (Char × String)
  cached : Bool
  deriving DecidableEq, Repr

/-- The pane tree.  One constructor per `BufferFuncs` implementation in the
source; `split` mirrors `SplitBuffer` and `tabbed` mirrors `TabbedBuffer`
(the `char_size` field of both containers is carried along). -/
inductive Pane where
  | empty : Pane
  | file (fb : FileBuffer) : Pane
  | hex (hb : HexBuffer) : Pane
  | tree (tb : TreeBuffer) : Pane
  | highlight (colors : List (String × Color)) : Pane
  | logview : Pane
  | split (a b : Pane) (splitDir : SplitDir) (split : Measurement)
      (aActive : Bool) (charSize : Vector) : Pane
  | tabbed (tabs : List Pane) (active : Nat) (charSize : Vector) : Pane

mutual

/-- Boolean equality on panes (the automatic derivation does not handle the
`List Pane` nesting). -/
def Pane.beq : Pane → Pane → Bool
  | .empty, .empty => true
  | .file f1, .file f2 => decide (f1 = f2)
  | .hex h1, .hex h2 => decide (h1 = h2)
  | .tree t1, .tree t2 => decide (t1 = t2)
  | .highlight c1, .highlight c2 => decide (c1 = c2)
  | .logview, .logview => true
  | .split a1 b1 d1 m1 act1 c1, .split a2 b2 d2 m2 act2 c2 =>
      Pane.beq a1 a2 && Pane.beq b1 b2 &&
        decide (d1 = d2) && decide (m1 = m2) && decide (act1 = act2) &&
        decide (c1 = c2)
  | .tabbed t1 a1 c1, .tabbed t2 a2 c2 =>
      Pane.beqList t1 t2 && decide (a1 = a2) && decide (c1 = c2)
  | _, _ => false

/-- Boolean equality on lists of panes. -/
def Pane.beqList : List Pane → List Pane → Bool
  | [], [] => true
  | x :: xs, y :: ys => Pane.beq x y && Pane.beqList xs ys
  | _, _ => false

end

mutual

theorem Pane.beq_iff : ∀ a b : Pane, Pane.beq a b = true ↔ a = b
  | .empty, .empty => by simp [Pane.beq]
  | .file f1, .file f2 => by simp [Pane.beq]
  | .hex h1, .hex h2 => by simp [Pane.beq]
  | .tree t1, .tree t2 => by simp [Pane.beq]
  | .highlight c1, .highlight c2 => by simp [Pane.beq]
  | .logview, .logview => by simp [Pane.beq]
  | .split a1 b1 d1 m1 act1 c1, .split a2 b2 d2 m2 act2 c2 => by
      simp [Pane.beq, Pane.beq_iff a1 a2, Pane.beq_iff b1 b2, and_assoc]
  | .tabbed t1 a1 c1, .tabbed t2 a2 c2 => by
      simp [Pane.beq, Pane.beqList_iff t1 t2, and_assoc]
  | .empty, .file _ => by simp [Pane.beq]
  | .empty, .hex _ => by simp [Pane.beq]
  | .empty, .tree _ => by simp [Pane.beq]
  | .empty, .highlight _ => by simp [Pane.beq]
  | .empty, .logview => by simp [Pane.beq]
  | .empty, .split _ _ _ _ _ _ => by simp [Pane.beq]
  | .empty, .tabbed _ _ _ => by simp [Pane.beq]
  | .file _, .empty => by simp [Pane.beq]
  | .file _, .hex _ => by simp [Pane.beq]
  | .file _, .tree _ => by simp [Pane.beq]
  | .file _, .highlight _ => by simp [Pane.beq]
  | .file _, .logview => by simp [Pane.beq]
  | .file _, .split _ _ _ _ _ _ => by simp [Pane.beq]
  | .file _, .tabbed _ _ _ => by simp [Pane.beq]
  | .hex _, .empty => by simp [Pane.beq]
  | .hex _, .file _ => by simp [Pane.beq]
  | .hex _, .tree _ => by simp [Pane.beq]
  | .hex _, .highlight _ => by simp [Pane.beq]
  | .hex _, .logview => by simp [Pane.beq]
  | .hex _, .split _ _ _ _ _ _ => by simp [Pane.beq]
  | .hex _, .tabbed _ _ _ => by simp [Pane.beq]
  | .tree _, .empty => by simp [Pane.beq]
  | .tree _, .file _ => by simp [Pane.beq]
  | .tree _, .hex _ => by simp [Pane.beq]
  | .tree _, .highlight _ => by simp [Pane.beq]
  | .tree _, .logview => by simp [Pane.beq]
  | .tree _, .split _ _ _ _ _ _ => by simp [Pane.beq]
  | .tree _, .tabbed _ _ _ => by simp [Pane.beq]
  | .highlight _, .empty => by simp [Pane.beq]
  | .highlight _, .file _ => by simp [Pane.beq]
  | .highlight _, .hex _ => by simp [Pane.beq]
  | .highlight _, .tree _ => by simp [Pane.beq]
  | .highlight _, .logview => by simp [Pane.beq]
  | .highlight _, .split _ _ _ _ _ _ => by simp [Pane.beq]
  | .highlight _, .tabbed _ _ _ => by simp [Pane.beq]
  | .logview, .empty => by simp [Pane.beq]
  | .logview, .file _ => by simp [Pane.beq]
  | .logview, .hex _ => by simp [Pane.beq]
  | .logview, .tree _ => by simp [Pane.beq]
  | .logview, .highlight _ => by simp [Pane.beq]
  | .logview, .split _ _ _ _ _ _ => by simp [Pane.beq]
  | .logview, .tabbed _ _ _ => by simp [Pane.beq]
  | .split _ _ _ _ _ _, .empty => by simp [Pane.beq]
  | .split _ _ _ _ _ _, .file _ => by simp [Pane.beq]
  | .split _ _ _ _ _ _, .hex _ => by simp [Pane.beq]
  | .split _ _ _ _ _ _, .tree _ => by simp [Pane.beq]
  | .split _ _ _ _ _ _, .highlight _ => by simp [Pane.beq]
  | .split _ _ _ _ _ _, .logview => by simp [Pane.beq]
  | .split _ _ _ _ _ _, .tabbed _ _ _ => by simp [Pane.beq]
  | .tabbed _ _ _, .empty => by simp [Pane.beq]
  | .tabbed _ _ _, .file _ => by simp [Pane.beq]
  | .tabbed _ _ _, .hex _ => by simp [Pane.beq]
  | .tabbed _ _ _, .tree _ => by simp [Pane.beq]
  | .tabbed _ _ _, .highlight _ => by simp [Pane.beq]
  | .tabbed _ _ _, .logview => by simp [Pane.beq]
  | .tabbed _ _ _, .split _ _ _ _ _ _ => by simp [Pane.beq]

theorem Pane.beqList_iff : ∀ xs ys : List Pane, Pane.beqList xs ys = true ↔ xs = ys
  | [], [] => by simp [Pane.beqList]
  | x :: xs, y :: ys => by
      simp [Pane.beqList, Pane.beq_iff x y, Pane.beqList_iff xs ys]
  | [], _ :: _ => by simp [Pane.beqList]
  | _ :: _, [] => by simp [Pane.beqList]

end

instance : DecidableEq Pane := fun a b =>
  decidable_of_iff _ (Pane.beq_iff a b)

/-- `CloseKind` (`main.rs` / `buffer/mod.rs`). -/
inductive CloseKind where
  | done : CloseKind
  | this : CloseKind
  | replace (r : Pane) : CloseKind
  deriving DecidableEq

/-- `is_empty`: overridden to `true` only by `EmptyBuffer`; the default
implementation in the trait returns `false`. -/
def Pane.is_empty : Pane → Bool
  | .empty => true
  | _ => false

mutual

/-- Number of panes (nodes) in the tree. -/
def Pane.size : Pane → Nat
  | .split a b _ _ _ _ => 1 + Pane.size a + Pane.size b
  | .tabbed tabs _ _ => 1 + Pane.sizeList tabs
  | _ => 1

/-- Total size of a list of panes. -/
def Pane.sizeList : List Pane → Nat
  | [] => 0
  | t :: ts => Pane.size t + Pane.sizeList ts

end

mutual

/-- Number of non-`Empty` leaves in the tree. -/
def Pane.fullLeaves : Pane → Nat
  | .empty => 0
  | .split a b _ _ _ _ => Pane.fullLeaves a + Pane.fullLeaves b
  | .tabbed tabs _ _ => Pane.fullLeavesList tabs
  | _ => 1

/-- Total number of non-`Empty` leaves in a list of panes. -/
def Pane.fullLeavesList : List Pane → Nat
  | [] => 0
  | t :: ts => Pane.fullLeaves t + Pane.fullLeavesList ts

end

/-- Termination measure for repeated closing: node count plus count of
non-`Empty` leaves.  Every effective `close` strictly decreases it. -/
def Pane.weight (p : Pane) : Nat :=
  p.size + p.fullLeaves

mutual

/-- Structural well-formedness: in every `Tabbed` node the active index is
in bounds (which the source relies on for its `tabs[active]` indexing; it
also forces the tab list to be non-empty). -/
def Pane.wfb : Pane → Bool
  | .split a b _ _ _ _ => Pane.wfb a && Pane.wfb b
  | .tabbed tabs act _ => decide (act < tabs.length) && Pane.wfbList tabs
  | _ => true

/-- All panes of a list are well-formed. -/
def Pane.wfbList : List Pane → Bool
  | [] => true
  | t :: ts => Pane.wfb t && Pane.wfbList ts

end

/-- Well-formedness as a proposition. -/
def Pane.wf (p : Pane) : Prop := p.wfb = true

instance (p : Pane) : Decidable p.wf :=
  inferInstanceAs (Decidable (p.wfb = true))

mutual

/-- The focused leaf: follow active-child pointers from the root
(spec §4 / glossary).  A leaf is its own focused leaf; `none` can only
arise from an out-of-bounds active index, which `wf` excludes. -/
def Pane.focusedLeaf : Pane → Option Pane
  | .empty => some .empty
  | .file fb => some (.file fb)
  | .hex hb => some (.hex hb)
  | .tree tb => some (.tree tb)
  | .highlight c => some (.highlight c)
  | .logview => some .logview
  | .split a b _ _ act _ => if act then Pane.focusedLeaf a else Pane.focusedLeaf b
  | .tabbed tabs act _ => Pane.focusedLeafNth tabs act

/-- Focused leaf of the `n`-th pane of a list. -/
def Pane.focusedLeafNth : List Pane → Nat → Option Pane
  | [], _ => none
  | t :: _, 0 => Pane.focusedLeaf t
  | _ :: ts, n + 1 => Pane.focusedLeafNth ts n

end

mutual

/-- `close` (`main.rs`; identical in `buffer/split.rs` / `buffers/tabbed.rs`).
Returns the `CloseKind` and the node state after the call (the source
mutates `self` in place).  Leaf closes notify the LSP (dropped here) and
return `This`.  The tabbed arm's `tabs[active]` indexing is modelled with
`getD`/`closeNth`; out-of-bounds (a Rust panic) cannot occur on `wf` trees. -/
def Pane.close : Pane → CloseKind × Pane
  | .empty => (.this, .empty)
  | .file fb => (.this, .file fb)
  | .hex hb => (.this, .hex hb)
  | .tree tb => (.this, .tree tb)
  | .highlight c => (.this, .highlight c)
  | .logview => (.this, .logview)
  | .split a b sd m act cs =>
      if a.is_empty && b.is_empty then (.this, .split a b sd m act cs)
      else if act then
        match Pane.close a with
        | (.done, a') => (.done, .split a' b sd m act cs)
        | (.this, a') =>
            if a'.is_empty then (.replace b, .split a' b sd m act cs)
            else (.done, .split .empty b sd m act cs)
        | (.replace r, _) => (.done, .split r b sd m act cs)
      else
        match Pane.close b with
        | (.done, b') => (.done, .split a b' sd m act cs)
        | (.this, b') =>
            if b'.is_empty then (.replace a, .split a b' sd m act cs)
            else (.done, .split a .empty sd m act cs)
        | (.replace r, _) => (.done, .split a r sd m act cs)
  | .tabbed tabs act cs =>
      if (tabs.getD act .empty).is_empty then
        let tabs' := tabs.eraseIdx act
        let act' := if act ≠ 0 then act - 1 else act
        if tabs'.length = 0 then (.this, .tabbed tabs' act' cs)
        else (.done, .tabbed tabs' act' cs)
      else
        match Pane.closeNth tabs act with
        | (.done, c') => (.done, .tabbed (tabs.set act c') act cs)
        | (.this, _) => (.done, .tabbed (tabs.set act .empty) act cs)
        | (.replace r, _) => (.done, .tabbed (tabs.set act r) act cs)

/-- `close` of the `n`-th pane of a list (models `self.tabs[self.active]
.close(lsp)`; the out-of-range answer is never used on `wf` trees). -/
def Pane.closeNth : List Pane → Nat → CloseKind × Pane
  | [], _ => (.this, .empty)
  | t :: _, 0 => Pane.close t
  | _ :: ts, n + 1 => Pane.closeNth ts n

end

mutual

/-- `set_focused` (`main.rs`; identical in the split modules).  Returns
whether the caller must replace this node with `child`, plus the node's
state after the call.  Leaves: `EmptyBuffer`, `HighlightBuffer` and
`LogViewBuffer` return `true`; `FileBuffer`, `HexBuffer`, `TreeBuffer`
return `false`.  Containers substitute into their active slot and return
`false`. -/
def Pane.set_focused (child : Pane) : Pane → Bool × Pane
  | .empty => (true, .empty)
  | .file fb => (false, .file fb)
  | .hex hb => (false, .hex hb)
  | .tree tb => (false, .tree tb)
  | .highlight c => (true, .highlight c)
  | .logview => (true, .logview)
  | .split a b sd m act cs =>
      if act then
        let r := Pane.set_focused child a
        (false, .split (if r.1 then child else r.2) b sd m act cs)
      else
        let r := Pane.set_focused child b
        (false, .split a (if r.1 then child else r.2) sd m act cs)
  | .tabbed tabs act cs =>
      let r := Pane.setFocusedNth child tabs act
      (false, .tabbed (tabs.set act (if r.1 then child else r.2)) act cs)

/-- `set_focused` on the `n`-th pane of a list (models
`self.tabs[self.active].set_focused(child)`). -/
def Pane.setFocusedNth (child : Pane) : List Pane → Nat → Bool × Pane
  | [], _ => (false, .empty)
  | t :: _, 0 => Pane.set_focused child t
  | _ :: ts, n + 1 => Pane.setFocusedNth child ts n

end

/-- `nav` (`main.rs` / `buffer/split.rs` / `buffers/tabbed.rs`).  Returns
whether the node handled the directional move, plus its state after the
call.  All leaves return `false`; `TabbedBuffer::nav` returns `false`
without touching any child; `SplitBuffer::nav` implements the axis
matching of §4.3. -/
def Pane.nav : Pane → NavDir → Bool × Pane
  | .empty, _ => (false, .empty)
  | .file fb, _ => (false, .file fb)
  | .hex hb, _ => (false, .hex hb)
  | .tree tb, _ => (false, .tree tb)
  | .highlight c, _ => (false, .highlight c)
  | .logview, _ => (false, .logview)
  | .tabbed tabs act cs, _ => (false, .tabbed tabs act cs)
  | .split a b sd m act cs, dir =>
      match dir, sd with
      | .down, .vertical =>
          if act then
            let r := Pane.nav a dir
            (true, .split r.2 b sd m r.1 cs)
          else
            let r := Pane.nav b dir
            (r.1, .split a r.2 sd m act cs)
      | .up, .vertical =>
          if !act then
            let r := Pane.nav b dir
            (true, .split a r.2 sd m (!r.1) cs)
          else
            let r := Pane.nav a dir
            (r.1, .split r.2 b sd m act cs)
      | .left, .horizontal =>
          if !act then
            let r := Pane.nav b dir
            (true, .split a r.2 sd m (!r.1) cs)
          else
            let r := Pane.nav a dir
            (r.1, .split r.2 b sd m act cs)
      | .right, .horizontal =>
          if act then
            let r := Pane.nav a dir
            (true, .split r.2 b sd m r.1 cs)
          else
            let r := Pane.nav b dir
            (r.1, .split a r.2 sd m act cs)
      | _, _ =>
          if act then
            let r := Pane.nav a dir
            (r.1, .split r.2 b sd m act cs)
          else
            let r := Pane.nav b dir
            (r.1, .split a r.2 sd m act cs)

/-- The axis-match table of §4.3: which directions are handled specially by
a split of the given direction (all other combinations fall to the
catch-all delegation arm of `SplitBuffer::nav`). -/
def axisMatches (dir : NavDir) (sd : SplitDir) : Bool :=
  match dir, sd with
  | .down, .vertical => true
  | .up, .vertical => true
  | .left, .horizontal => true
  | .right, .horizontal => true
  | _, _ => false

/-! ## The command layer (`run_command` in `main.rs`) -/

/-- The split node built by `Command::Split(Horizontal|Vertical)`: two fresh
`EmptyBuffer` children, `a_active: false`, `split: Percent(0.5)`,
`char_size: (1,1)`. -/
def newSplitPane (d : SplitDir) : Pane :=
  .split .empty .empty d (.percent (1 / 2)) false ⟨1, 1⟩

/-- The tabbed node built by `Command::Split(SplitKind::Tabbed)`: one fresh
`EmptyBuffer` tab, `active: 0`. -/
def newTabbedPane : Pane :=
  .tabbed [.empty] 0 ⟨1, 1⟩

/-- The file node built by `Command::Open(path)`. -/
def newFilePane (path : String) : Pane :=
  .file ⟨path, false, [], ⟨0, 0⟩, 0, .normal, 0, ⟨0, 0⟩⟩

/-- `if bu.set_focused(&adds) { *bu = adds; }` — the root-replacement step
shared by the Open and Split commands. -/
def applySetFocused (cand : Pane) (root : Pane) : Pane :=
  let r := Pane.set_focused cand root
  if r.1 then cand else r.2

/-- `run_command` for `Command::Split(Horizontal|Vertical)`. -/
def runSplit (d : SplitDir) (root : Pane) : Pane :=
  applySetFocused (newSplitPane d) root

/-- `run_command` for `Command::Split(SplitKind::Tabbed)`. -/
def runSplitTabbed (root : Pane) : Pane :=
  applySetFocused newTabbedPane root

/-- `run_command` for `Command::Open(path)` (the LSP open notification is
dropped). -/
def runOpen (path : String) (root : Pane) : Pane :=
  applySetFocused (newFilePane path) root

/-- `run_command` for `Command::Close`: `Replace(r)` installs `r` as root,
`This` replaces the root with a fresh `EmptyBuffer`, `Done` keeps the
root. -/
def runClose (root : Pane) : Pane :=
  match root.close with
  | (.replace r, _) => r
  | (.this, _) => .empty
  | (.done, root') => root'

/-- Iterated `Close` commands. -/
def runCloses : Nat → Pane → Pane
  | 0, root => root
  | n + 1, root => runCloses n (runClose root)

/-! ## Leaf content loading and viewport scrolling (`update` of File/Hex/Tree)

The filesystem is passed as an explicit oracle (`none` = read error).  For
the file pane the oracle returns the file's lines (Rust reads a string and
splits with `str::lines`); for the hex pane, the byte list; for the tree
pane, the `(is_dir, stripped_name)` directory entries. -/

/-- The value Rust `i32::clamp(lo, hi)` returns in its defined case
`lo ≤ hi`.  (When `hi < lo` Rust's `clamp` panics; that case is modelled
by `clampI?` below, and this total function is only used in theorem
statements to name the clamped value.) -/
def clampI (v lo hi : Int) : Int :=
  Max.max lo (Min.min v hi)

/-- Rust `i32::clamp(lo, hi)` including its panic: `clamp` asserts
`min ≤ max` and aborts otherwise, so `none` models the `hi < lo` panic. -/
def clampI? (v lo hi : Int) : Option Int :=
  if hi < lo then none else some (clampI v lo hi)

/-- Body of `while self.pos.y - self.scroll < 1 && self.scroll > 0
{ self.scroll -= 1 }`, with explicit fuel.  Each iteration requires
`0 < s` and decrements `s`, so `s.toNat` rounds of fuel make the fuelled
version exact. -/
def scrollUpGo (py : Int) : Nat → Int → Int
  | 0, s => s
  | f + 1, s => if py - s < 1 ∧ 0 < s then scrollUpGo py f (s - 1) else s

/-- The first scroll loop of `FileBuffer::update` / `HexBuffer::update`. -/
def scrollUp (py s : Int) : Int :=
  scrollUpGo py s.toNat s

/-- Body of `while self.pos.y - self.scroll > self.height - 1 &&
self.scroll < len { self.scroll += 1 }`, with explicit fuel.  Each
iteration requires `s < len` and increments `s`, so `(len - s).toNat`
rounds of fuel make the fuelled version exact. -/
def scrollDownGo (py height len : Int) : Nat → Int → Int
  | 0, s => s
  | f + 1, s =>
      if height - 1 < py - s ∧ s < len then scrollDownGo py height len f (s + 1)
      else s

/-- The second scroll loop of `FileBuffer::update` / `HexBuffer::update`. -/
def scrollDown (py height len s : Int) : Int :=
  scrollDownGo py height len (len - s).toNat s

/-- The lazy-load block of `FileBuffer::update` (`if !self.cached { … }`):
on the first call the file is read; a read error appends one empty line
(`self.data.push("".to_string())`); a successful read appends the file's
lines (so a successful read of an empty file appends nothing). -/
def FileBuffer.load (fs : String → Option (List String))
    (fb : FileBuffer) : FileBuffer :=
  if !fb.cached then
    match fs fb.filename with
    | none => { fb with data := fb.data ++ [""], cached := true }
    | some ls => { fb with data := fb.data ++ ls, cached := true }
  else fb

/-- The rest of `FileBuffer::update` after the load block: return early
when `size.x < 4`; otherwise clamp `pos.x` to `[0, size.x − 6]` and
`pos.y` to `[0, len − 1]`, run the two scroll loops, and re-clamp `pos.x`
to the current line's byte length (`String::len`).  `none` models a clamp
panic: `i32::clamp` aborts for `size.x ∈ {4, 5}` (first clamp) and for
empty `data` (second clamp). -/
def FileBuffer.updateClamps (size : Vector) (fb : FileBuffer) :
    Option FileBuffer :=
  if size.x < 4 then some fb
  else
    match clampI? fb.pos.x 0 (size.x - 6) with
    | none => none
    | some px =>
      match clampI? fb.pos.y 0 ((fb.data.length : Int) - 1) with
      | none => none
      | some py =>
        let scr := scrollUp py fb.scroll
        let scr := scrollDown py fb.height (fb.data.length : Int) scr
        match
          (if py < (fb.data.length : Int) then
            clampI? px 0 ((fb.data.getD py.toNat "").utf8ByteSize : Int)
          else some px) with
        | none => none
        | some px2 => some { fb with pos := ⟨px2, py⟩, scroll := scr }

/-- `FileBuffer::update` (`main.rs` / `buffers/file.rs`): the lazy load
followed by cursor clamping and scrolling; `none` models a panic of one
of the cursor clamps. -/
def FileBuffer.update (fs : String → Option (List String)) (size : Vector)
    (fb : FileBuffer) : Option FileBuffer :=
  FileBuffer.updateClamps size (FileBuffer.load fs fb)

/-- The lazy-load block of `HexBuffer::update`: a read error replaces the
data with a single zero byte (`self.data = vec![0]`); a successful read
installs the bytes. -/
def HexBuffer.load (fs : String → Option (List Nat))
    (hb : HexBuffer) : HexBuffer :=
  if !hb.cached then
    match fs hb.filename with
    | none => { hb with data := [0], cached := true }
    | some bytes => { hb with data := bytes, cached := true }
  else hb

/-- The rest of `HexBuffer::update` after the load block; the final
horizontal clamp is the fixed 16-column grid (`clamp(0, 15)`).  `none`
models a clamp panic, exactly as in `FileBuffer.updateClamps`. -/
def HexBuffer.updateClamps (size : Vector) (hb : HexBuffer) :
    Option HexBuffer :=
  if size.x < 4 then some hb
  else
    match clampI? hb.pos.x 0 (size.x - 6) with
    | none => none
    | some px =>
      match clampI? hb.pos.y 0 ((hb.data.length : Int) - 1) with
      | none => none
      | some py =>
        let scr := scrollUp py hb.scroll
        let scr := scrollDown py hb.height (hb.data.length : Int) scr
        match
          (if py < (hb.data.length : Int) then clampI? px 0 15
          else some px) with
        | none => none
        | some px2 => some { hb with pos := ⟨px2, py⟩, scroll := scr }

/-- `HexBuffer::update` (`main.rs` / `buffer/hex.rs`): the lazy load
followed by cursor clamping and scrolling; `none` models a panic of one
of the cursor clamps. -/
def HexBuffer.update (fs : String → Option (List Nat)) (size : Vector)
    (hb : HexBuffer) : Option HexBuffer :=
  HexBuffer.updateClamps size (HexBuffer.load fs hb)

/-- The sort applied to the tree cache on every update:
`sort_by` on the string `label.to_string() + name`. -/
def sortTreeCache (cache : List (Char × String)) : List (Char × String) :=
  cache.mergeSort fun a b =>
    decide ((a.1.toString ++ a.2) ≤ (b.1.toString ++ b.2))

/-- `TreeBuffer::update` (`main.rs` / `buffers/tree.rs`).  The directory
listing is read on the first call through `read_dir(..).unwrap()`: a read
error is NOT caught — the `unwrap` panics, modelled as `none`. -/
def TreeBuffer.update (fs : Option (List (Bool × String)))
    (tb : TreeBuffer) : Option TreeBuffer :=
  if !tb.cached then
    match fs with
    | none => none
    | some entries =>
        let cache :=
          tb.cache ++ entries.map fun e => (if e.1 then 'D' else 'F', e.2)
        some { tb with cache := sortTreeCache cache, cached := true }
  else some { tb with cache := sortTreeCache tb.cache }

/-! ## Helper lemmas about list access in tabbed nodes -/

theorem sizeOf_getD_lt : ∀ (tabs : List Pane) (n : Nat),
    sizeOf (tabs.getD n Pane.empty) < 1 + sizeOf tabs
  | [], n => by simp [List.getD]
  | t :: ts, 0 => by simp; omega
  | t :: ts, n + 1 => by
      have h := sizeOf_getD_lt ts n
      simp at *
      omega

theorem focusedLeafNth_eq : ∀ (tabs : List Pane) (n : Nat), n < tabs.length →
    Pane.focusedLeafNth tabs n = Pane.focusedLeaf (tabs.getD n .empty)
  | [], n, h => by simp at h
  | t :: ts, 0, _ => by simp [Pane.focusedLeafNth]
  | t :: ts, n + 1, h => by
      simp only [Pane.focusedLeafNth, List.getD_cons_succ]
      exact focusedLeafNth_eq ts n (by simpa using h)

theorem closeNth_eq : ∀ (tabs : List Pane) (n : Nat), n < tabs.length →
    Pane.closeNth tabs n = Pane.close (tabs.getD n .empty)
  | [], n, h => by simp at h
  | t :: ts, 0, _ => by simp [Pane.closeNth]
  | t :: ts, n + 1, h => by
      simp only [Pane.closeNth, List.getD_cons_succ]
      exact closeNth_eq ts n (by simpa using h)

theorem setFocusedNth_eq (child : Pane) : ∀ (tabs : List Pane) (n : Nat),
    n < tabs.length →
    Pane.setFocusedNth child tabs n = Pane.set_focused child (tabs.getD n .empty)
  | [], n, h => by simp at h
  | t :: ts, 0, _ => by simp [Pane.setFocusedNth]
  | t :: ts, n + 1, h => by
      simp only [Pane.setFocusedNth, List.getD_cons_succ]
      exact setFocusedNth_eq child ts n (by simpa using h)

theorem set_getD_self : ∀ (l : List Pane) (n : Nat),
    l.set n (l.getD n .empty) = l
  | [], _ => rfl
  | t :: ts, 0 => by simp
  | t :: ts, n + 1 => by
      simp only [List.getD_cons_succ, List.set_cons_succ]
      rw [set_getD_self ts n]

theorem getD_set_self : ∀ (l : List Pane) (n : Nat) (x : Pane), n < l.length →
    (l.set n x).getD n .empty = x
  | [], n, x, h => by simp at h
  | t :: ts, 0, x, _ => by simp
  | t :: ts, n + 1, x, h => by
      simp only [List.set_cons_succ, List.getD_cons_succ]
      exact getD_set_self ts n x (by simpa using h)

theorem wf_split_iff (a b : Pane) (sd : SplitDir) (m : Measurement)
    (act : Bool) (cs : Vector) :
    (Pane.split a b sd m act cs).wf ↔ a.wf ∧ b.wf := by
  simp [Pane.wf, Pane.wfb]

theorem wf_tabbed_iff (tabs : List Pane) (act : Nat) (cs : Vector) :
    (Pane.tabbed tabs act cs).wf ↔
      act < tabs.length ∧ Pane.wfbList tabs = true := by
  simp [Pane.wf, Pane.wfb]

theorem wfbList_getD : ∀ (tabs : List Pane) (n : Nat),
    Pane.wfbList tabs = true → (tabs.getD n .empty).wf
  | [], n, _ => by simp [List.getD, Pane.wf, Pane.wfb]
  | t :: ts, 0, h => by
      simp [Pane.wfbList] at h
      simpa [Pane.wf] using h.1
  | t :: ts, n + 1, h => by
      simp only [List.getD_cons_succ]
      simp [Pane.wfbList] at h
      exact wfbList_getD ts n h.2

/-! ## Spec-side description of `SplitBuffer::close` (§4.2)

Written from the specification's words, to be compared with the
source-derived `Pane.close`. -/

/-- §4.2, Split container close, as the spec states it: if both children
are empty return `This`; otherwise recurse `close` into the active child;
on `Done` return `Done`; on `This`, if the closed child is now empty return
`Replace(other_child)`, otherwise set the closed child's slot to a fresh
Empty leaf and return `Done`; on `Replace(r)`, install `r` in that slot and
return `Done`. -/
def splitCloseSpec (a b : Pane) (sd : SplitDir) (m : Measurement)
    (act : Bool) (cs : Vector) : CloseKind × Pane :=
  let install : Pane → Pane := fun x =>
    if act then .split x b sd m act cs else .split a x sd m act cs
  if a.is_empty && b.is_empty then (.this, .split a b sd m act cs)
  else
    match Pane.close (if act then a else b) with
    | (.done, c') => (.done, install c')
    | (.this, c') =>
        if c'.is_empty then (.replace (if act then b else a), install c')
        else (.done, install .empty)
    | (.replace r, _) => (.done, install r)

/-! ## Theorems -/

/-- **C9.** For every `max` and `char_size`, `Measurement::get_value` stays
within `max` for the `Chars`, `NegChars`, `Pixels` and `NegPixels`
variants, and the `NegChars`/`NegPixels` subtractions never underflow (the
subtrahend is clamped to `max` first, so the `Nat` result agrees with the
exact integer subtraction); `Percent` is not clamped: some factor above
`1.0` yields a value strictly greater than `max`. -/
theorem c9_get_value_clamped :
    (∀ max cs v : Nat,
      (Measurement.chars v).get_value max cs ≤ max ∧
      (Measurement.negChars v).get_value max cs ≤ max ∧
      (Measurement.pixels v).get_value max cs ≤ max ∧
      (Measurement.negPixels v).get_value max cs ≤ max ∧
      ((Measurement.negChars v).get_value max cs : Int)
        = (max : Int) - (Min.min (v * cs) max : Nat) ∧
      ((Measurement.negPixels v).get_value max cs : Int)
        = (max : Int) - (Min.min v max : Nat)) ∧
    ∃ pc : ℚ, 1 < pc ∧ ∃ max cs : Nat,
      max < (Measurement.percent pc).get_value max cs := by
  constructor
  · intro max cs v
    refine ⟨?_, ?_, ?_, ?_, ?_, ?_⟩ <;>
      simp only [Measurement.get_value] <;> omega
  · refine ⟨2, by norm_num, 10, 1, ?_⟩
    norm_num [Measurement.get_value]

/-- **C3.** `SplitBuffer::close` implements exactly the case analysis of
§4.2: both children empty → `This`; otherwise recurse into the active
child and map `Done ↦ Done`, `This ↦ Replace(other)` when the closed child
is now empty / slot := Empty and `Done` otherwise, `Replace(r) ↦` install
`r`, `Done`. -/
theorem c3_split_close_follows_spec (a b : Pane) (sd : SplitDir)
    (m : Measurement) (act : Bool) (cs : Vector) :
    Pane.close (.split a b sd m act cs) = splitCloseSpec a b sd m act cs := by
  rcases ha : Pane.close a with ⟨k1, a'⟩
  rcases hb : Pane.close b with ⟨k2, b'⟩
  cases act <;> by_cases hab : (a.is_empty && b.is_empty) = true <;>
    cases k1 <;> cases k2 <;>
      simp [Pane.close, splitCloseSpec, hab, ha, hb]

/-- Key lemma for the split-then-close identity: let `N` be a freshly
created container whose `close` immediately answers `This` (with a
post-state that is not an Empty leaf) — e.g. the `Split{Empty, Empty}`
node built by the Split command.  Substituting `N` at the focused slot of
a well-formed tree whose focused leaf is Empty and then closing restores
the original tree and reports `Done`. -/
theorem splitThenCloseAux (N N' : Pane) (hN : Pane.close N = (.this, N'))
    (hNe : N.is_empty = false) (hN'e : N'.is_empty = false) :
    ∀ t : Pane, t.wf → t.focusedLeaf = some Pane.empty → t ≠ Pane.empty →
      (Pane.set_focused N t).1 = false ∧
      (Pane.set_focused N t).2.is_empty = false ∧
      Pane.close (Pane.set_focused N t).2 = (.done, t)
  | .empty, _, _, hne => absurd rfl hne
  | .file _, _, hfl, _ => by simp [Pane.focusedLeaf] at hfl
  | .hex _, _, hfl, _ => by simp [Pane.focusedLeaf] at hfl
  | .tree _, _, hfl, _ => by simp [Pane.focusedLeaf] at hfl
  | .highlight _, _, hfl, _ => by simp [Pane.focusedLeaf] at hfl
  | .logview, _, hfl, _ => by simp [Pane.focusedLeaf] at hfl
  | .split a b sd m act cs, hw, hfl, _ => by
      rw [wf_split_iff] at hw
      obtain ⟨hwa, hwb⟩ := hw
      cases act with
      | true =>
          simp only [Pane.focusedLeaf, if_true] at hfl
          by_cases ha : a = Pane.empty
          · subst ha
            refine ⟨rfl, rfl, ?_⟩
            simp only [Pane.set_focused]
            simp only [Pane.close, hNe, Bool.false_and, Bool.false_eq_true,
              if_false, if_true, hN, hN'e]
          · have hIH := splitThenCloseAux N N' hN hNe hN'e a hwa hfl ha
            obtain ⟨h1, h2, h3⟩ := hIH
            refine ⟨rfl, rfl, ?_⟩
            simp only [Pane.set_focused, h1, Bool.false_eq_true, if_false]
            simp only [Pane.close, h2, Bool.false_and, Bool.false_eq_true,
              if_false, if_true, h3]
      | false =>
          simp only [Pane.focusedLeaf, Bool.false_eq_true, if_false] at hfl
          by_cases hb : b = Pane.empty
          · subst hb
            refine ⟨rfl, rfl, ?_⟩
            simp only [Pane.set_focused]
            simp only [Pane.close, hNe, Bool.and_false, Bool.false_eq_true,
              if_false, if_true, hN, hN'e]
          · have hIH := splitThenCloseAux N N' hN hNe hN'e b hwb hfl hb
            obtain ⟨h1, h2, h3⟩ := hIH
            refine ⟨rfl, rfl, ?_⟩
            simp only [Pane.set_focused, h1, Bool.false_eq_true, if_false]
            simp only [Pane.close, h2, Bool.and_false, Bool.false_eq_true,
              if_false, if_true, h3]
  | .tabbed tabs act cs, hw, hfl, _ => by
      rw [wf_tabbed_iff] at hw
      obtain ⟨hlen, hwl⟩ := hw
      simp only [Pane.focusedLeaf] at hfl
      rw [focusedLeafNth_eq tabs act hlen] at hfl
      have hact' : act < (tabs.set act N).length := by
        simpa using hlen
      by_cases hc : tabs.getD act .empty = Pane.empty
      · refine ⟨rfl, rfl, ?_⟩
        simp only [Pane.set_focused, setFocusedNth_eq N tabs act hlen, hc]
        simp only [Pane.set_focused, if_true]
        simp only [Pane.close, getD_set_self tabs act N hlen, hNe,
          Bool.false_eq_true, if_false]
        rw [closeNth_eq _ _ (by simpa using hlen),
          getD_set_self tabs act N hlen, hN]
        simp only [List.set_set]
        rw [← hc, set_getD_self tabs act]
      · have hIH := splitThenCloseAux N N' hN hNe hN'e (tabs.getD act .empty)
          (wfbList_getD tabs act hwl) hfl hc
        obtain ⟨h1, h2, h3⟩ := hIH
        refine ⟨rfl, rfl, ?_⟩
        simp only [Pane.set_focused, setFocusedNth_eq N tabs act hlen, h1,
          Bool.false_eq_true, if_false]
        simp only [Pane.close,
          getD_set_self tabs act (Pane.set_focused N (tabs.getD act .empty)).2
            hlen, h2, Bool.false_eq_true, if_false]
        rw [closeNth_eq _ _ (by simpa using hlen),
          getD_set_self tabs act _ hlen, h3]
        simp only [List.set_set]
        rw [set_getD_self tabs act]
  termination_by t => sizeOf t
  decreasing_by
    · simp_wf; omega
    · simp_wf; omega
    · have h := sizeOf_getD_lt tabs act
      simp only [List.getD, List.get?_eq_getElem?] at h
      simp_wf; omega

/-- Plain file panes used in concrete scenarios. -/
def plainFile (name : String) : Pane :=
  .file ⟨name, true, [], ⟨0, 0⟩, 0, .normal, 0, ⟨0, 0⟩⟩

/-- **C1, counterexample.** The open+split+close scenario does not behave
as claimed: after `Open("a.txt")` the root is `File[a.txt]`, but
`Split(Vertical)` is a no-op (the new split holds two Empty children and
`FileBuffer::set_focused` returns `false`, so the root is never replaced),
and `Close` then discards the file pane entirely, leaving the Empty root —
not `File[a.txt]`. -/
theorem c1_scenario_counterexample :
    runOpen "a.txt" .empty = newFilePane "a.txt" ∧
    runSplit .vertical (runOpen "a.txt" .empty) = newFilePane "a.txt" ∧
    runClose (runSplit .vertical (runOpen "a.txt" .empty)) = Pane.empty ∧
    Pane.empty ≠ newFilePane "a.txt" :=
  ⟨rfl, rfl, rfl, by decide⟩

/-- **C1, amended.** After `Open("a.txt")` on the Empty root the root is
`File[a.txt]`; `Split(Vertical)` then leaves the root unchanged (the split
command substitutes only at an accepting focused leaf, and a File leaf
refuses), and `Close` replaces the file root with Empty.  Split followed
immediately by Close is the identity exactly on trees whose focused leaf
is the Empty pane. -/
theorem c1_split_close_amended :
    runOpen "a.txt" .empty = newFilePane "a.txt" ∧
    runSplit .vertical (runOpen "a.txt" .empty) = runOpen "a.txt" .empty ∧
    runClose (runSplit .vertical (runOpen "a.txt" .empty)) = Pane.empty ∧
    ∀ (d : SplitDir) (t : Pane), t.wf → t.focusedLeaf = some Pane.empty →
      runClose (runSplit d t) = t := by
  refine ⟨rfl, rfl, rfl, ?_⟩
  intro d t hw hfl
  by_cases ht : t = Pane.empty
  · subst ht
    cases d <;> rfl
  · have hN : Pane.close (newSplitPane d) = (.this, newSplitPane d) := by
      cases d <;> rfl
    have haux := splitThenCloseAux (newSplitPane d) (newSplitPane d) hN rfl rfl
      t hw hfl ht
    obtain ⟨h1, _, h3⟩ := haux
    simp only [runSplit, applySetFocused, h1, Bool.false_eq_true, if_false,
      runClose, h3]

/-- Witness for the universally quantified part of
`c1_split_close_amended`: a one-tab tabbed root focused on its Empty tab. -/
theorem c1_split_close_amended_witness :
    Pane.wf (.tabbed [.empty] 0 ⟨1, 1⟩) ∧
    (Pane.tabbed [.empty] 0 ⟨1, 1⟩).focusedLeaf = some Pane.empty ∧
    runClose (runSplit .horizontal (.tabbed [.empty] 0 ⟨1, 1⟩))
      = .tabbed [.empty] 0 ⟨1, 1⟩ :=
  ⟨by decide, by decide,
    c1_split_close_amended.2.2.2 .horizontal (.tabbed [.empty] 0 ⟨1, 1⟩)
      (by decide) (by decide)⟩

/-- **C4, counterexample.** On `Tabbed{[File[a], File[b], File[c]],
active=1}` one `Close` does **not** remove the active tab: it replaces it
with a fresh Empty pane and keeps `active = 1`. -/
theorem c4_tabbed_close_scenario_counterexample :
    runClose (.tabbed [plainFile "a", plainFile "b", plainFile "c"] 1 ⟨1, 1⟩)
      = .tabbed [plainFile "a", .empty, plainFile "c"] 1 ⟨1, 1⟩ ∧
    runClose (.tabbed [plainFile "a", plainFile "b", plainFile "c"] 1 ⟨1, 1⟩)
      ≠ .tabbed [plainFile "a", plainFile "c"] 0 ⟨1, 1⟩ := by
  constructor
  · decide
  · decide

/-- **C4, amended.** Close on `Tabbed{[File[a], File[b], File[c]],
active=1}` first replaces the active tab with an Empty pane (tab list
length unchanged, `active` still 1); only a second Close removes the
now-empty tab, yielding `tabs=[File[a], File[c]]` with `active = 0`. -/
theorem c4_tabbed_close_scenario_two_steps :
    runClose (.tabbed [plainFile "a", plainFile "b", plainFile "c"] 1 ⟨1, 1⟩)
      = .tabbed [plainFile "a", .empty, plainFile "c"] 1 ⟨1, 1⟩ ∧
    runClose (runClose
        (.tabbed [plainFile "a", plainFile "b", plainFile "c"] 1 ⟨1, 1⟩))
      = .tabbed [plainFile "a", plainFile "c"] 0 ⟨1, 1⟩ := by
  constructor
  · decide
  · decide

/-- Leaves whose `set_focused` accepts a candidate (returns `true`). -/
def acceptsCandidate : Pane → Bool
  | .empty => true
  | .highlight _ => true
  | .logview => true
  | _ => false

/-- The focused leaf exists and accepts a `set_focused` candidate. -/
def focusedAccepts (t : Pane) : Bool :=
  match t.focusedLeaf with
  | some l => acceptsCandidate l
  | none => false

mutual

/-- Spec-side description of focus substitution: replace the pane at the
focused slot (the slot reached by following active-child pointers) with
the candidate, leaving all other structure intact. -/
def replaceFocused (cand : Pane) : Pane → Pane
  | .split a b sd m act cs =>
      if act then .split (replaceFocused cand a) b sd m act cs
      else .split a (replaceFocused cand b) sd m act cs
  | .tabbed tabs act cs =>
      .tabbed (tabs.set act (replaceFocusedNth cand tabs act)) act cs
  | _ => cand

/-- Focus substitution in the `n`-th pane of a list. -/
def replaceFocusedNth (cand : Pane) : List Pane → Nat → Pane
  | [], _ => cand
  | t :: _, 0 => replaceFocused cand t
  | _ :: ts, n + 1 => replaceFocusedNth cand ts n

end

theorem replaceFocusedNth_eq (cand : Pane) : ∀ (tabs : List Pane) (n : Nat),
    n < tabs.length →
    replaceFocusedNth cand tabs n = replaceFocused cand (tabs.getD n .empty)
  | [], n, h => by simp at h
  | t :: ts, 0, _ => by simp [replaceFocusedNth]
  | t :: ts, n + 1, h => by
      simp only [replaceFocusedNth, List.getD_cons_succ]
      exact replaceFocusedNth_eq cand ts n (by simpa using h)

/-- On trees with an accepting focused leaf, the root-replacement step of
`run_command` (`if bu.set_focused(&adds) { *bu = adds }`) is exactly
focus-slot substitution. -/
theorem applySetFocused_eq_replaceFocused (cand : Pane) :
    ∀ t : Pane, t.wf → focusedAccepts t = true →
      applySetFocused cand t = replaceFocused cand t
  | .empty, _, _ => rfl
  | .file _, _, hacc => by simp [focusedAccepts, Pane.focusedLeaf,
      acceptsCandidate] at hacc
  | .hex _, _, hacc => by simp [focusedAccepts, Pane.focusedLeaf,
      acceptsCandidate] at hacc
  | .tree _, _, hacc => by simp [focusedAccepts, Pane.focusedLeaf,
      acceptsCandidate] at hacc
  | .highlight _, _, _ => rfl
  | .logview, _, _ => rfl
  | .split a b sd m act cs, hw, hacc => by
      rw [wf_split_iff] at hw
      obtain ⟨hwa, hwb⟩ := hw
      cases act with
      | true =>
          have hacc' : focusedAccepts a = true := by
            simpa [focusedAccepts, Pane.focusedLeaf] using hacc
          have hIH := applySetFocused_eq_replaceFocused cand a hwa hacc'
          simp only [applySetFocused, Pane.set_focused, Bool.false_eq_true,
            if_false, replaceFocused, if_true] at *
          rw [← hIH]
      | false =>
          have hacc' : focusedAccepts b = true := by
            simpa [focusedAccepts, Pane.focusedLeaf] using hacc
          have hIH := applySetFocused_eq_replaceFocused cand b hwb hacc'
          simp only [applySetFocused, Pane.set_focused, Bool.false_eq_true,
            if_false, replaceFocused, if_true] at *
          rw [← hIH]
  | .tabbed tabs act cs, hw, hacc => by
      rw [wf_tabbed_iff] at hw
      obtain ⟨hlen, hwl⟩ := hw
      have hacc' : focusedAccepts (tabs.getD act .empty) = true := by
        simpa [focusedAccepts, Pane.focusedLeaf,
          focusedLeafNth_eq tabs act hlen] using hacc
      have hIH := applySetFocused_eq_replaceFocused cand (tabs.getD act .empty)
        (wfbList_getD tabs act hwl) hacc'
      simp only [applySetFocused, Pane.set_focused,
        setFocusedNth_eq cand tabs act hlen, Bool.false_eq_true, if_false,
        replaceFocused, replaceFocusedNth_eq cand tabs act hlen] at *
      rw [← hIH]
  termination_by t => sizeOf t
  decreasing_by
    · simp_wf; omega
    · simp_wf; omega
    · have h := sizeOf_getD_lt tabs act
      simp only [List.getD, List.get?_eq_getElem?] at h
      simp_wf; omega

/-- **C5, counterexample.** `set_focused` does **not** return `true` for
every leaf kind: a File leaf (and a Hex leaf) returns `false`, so the Open
and Split commands never replace a focused File/Hex pane. -/
theorem c5_set_focused_counterexample :
    (Pane.set_focused Pane.empty (plainFile "a")).1 = false ∧
    (Pane.set_focused Pane.empty
        (.hex ⟨"a", true, [], ⟨0, 0⟩, 0, .normal, 0, ⟨0, 0⟩⟩)).1 = false ∧
    applySetFocused (plainFile "b") (plainFile "a") = plainFile "a" := by
  refine ⟨rfl, rfl, rfl⟩

/-- **C5, amended.** `set_focused(candidate)` returns `true` only for the
Empty, Palette (Highlight) and Log leaves; File, Hex and Tree leaves — and
both container kinds — return `false`.  Consequently, substituting at the
focus location succeeds exactly when the focused leaf is one of the
accepting kinds, and then the caller's `if set_focused { replace }` step
is precisely focus-slot substitution. -/
theorem c5_set_focused_amended :
    (∀ c fb, (Pane.set_focused c (.file fb)).1 = false) ∧
    (∀ c hb, (Pane.set_focused c (.hex hb)).1 = false) ∧
    (∀ c tb, (Pane.set_focused c (.tree tb)).1 = false) ∧
    (∀ c, (Pane.set_focused c .empty).1 = true) ∧
    (∀ c colors, (Pane.set_focused c (.highlight colors)).1 = true) ∧
    (∀ c, (Pane.set_focused c .logview).1 = true) ∧
    (∀ c a b sd m act cs, (Pane.set_focused c (.split a b sd m act cs)).1 = false) ∧
    (∀ c tabs act cs, (Pane.set_focused c (.tabbed tabs act cs)).1 = false) ∧
    (∀ c t, t.wf → focusedAccepts t = true →
      applySetFocused c t = replaceFocused c t) := by
  refine ⟨fun _ _ => rfl, fun _ _ => rfl, fun _ _ => rfl, fun _ => rfl,
    fun _ _ => rfl, fun _ => rfl, ?_, fun _ _ _ _ => rfl, ?_⟩
  · intro c a b sd m act cs
    cases act <;> rfl
  · intro c t hw hacc
    exact applySetFocused_eq_replaceFocused c t hw hacc

/-- Witness for `c5_set_focused_amended`: the accepting-leaf substitution
at an Empty-focused split. -/
theorem c5_set_focused_amended_witness :
    Pane.wf (.split .empty (plainFile "a") .horizontal (.chars 3) true ⟨1, 1⟩) ∧
    focusedAccepts
        (.split .empty (plainFile "a") .horizontal (.chars 3) true ⟨1, 1⟩)
      = true ∧
    applySetFocused (plainFile "b")
        (.split .empty (plainFile "a") .horizontal (.chars 3) true ⟨1, 1⟩)
      = .split (plainFile "b") (plainFile "a") .horizontal (.chars 3) true
          ⟨1, 1⟩ :=
  ⟨by decide, by decide, by
    have h := c5_set_focused_amended.2.2.2.2.2.2.2.2 (plainFile "b")
      (.split .empty (plainFile "a") .horizontal (.chars 3) true ⟨1, 1⟩)
      (by decide) (by decide)
    rw [h]
    simp [replaceFocused]⟩

/-- **C6, counterexample.** `TabbedBuffer::nav` does not delegate to the
active child: with an active tab that is a vertical split (whose own `nav
Down` would succeed and flip its active child), the tabbed container still
returns `false` and leaves the child untouched. -/
theorem c6_tabbed_nav_counterexample :
    (Pane.nav
        (.tabbed [.split .empty .empty .vertical (.percent (1 / 2)) true ⟨1, 1⟩]
          0 ⟨1, 1⟩) .down).1 = false ∧
    (Pane.nav
        (.tabbed [.split .empty .empty .vertical (.percent (1 / 2)) true ⟨1, 1⟩]
          0 ⟨1, 1⟩) .down).2
      = .tabbed [.split .empty .empty .vertical (.percent (1 / 2)) true ⟨1, 1⟩]
          0 ⟨1, 1⟩ ∧
    (Pane.nav (.split .empty .empty .vertical (.percent (1 / 2)) true ⟨1, 1⟩)
        .down).1 = true ∧
    (Pane.nav (.split .empty .empty .vertical (.percent (1 / 2)) true ⟨1, 1⟩)
        .down).2
      ≠ .split .empty .empty .vertical (.percent (1 / 2)) true ⟨1, 1⟩ := by
  refine ⟨rfl, rfl, rfl, ?_⟩
  simp [Pane.nav]

/-- **C6, amended.** A Split container whose axis does not match the
direction delegates `nav` unconditionally to the active child, propagates
its return value and never changes which child is active; a Tabbed
container's `nav` returns `false` unconditionally without consulting (or
mutating) any child. -/
theorem c6_nav_mismatch_delegates (dir : NavDir) (sd : SplitDir)
    (h : axisMatches dir sd = false) :
    (∀ (a b : Pane) (m : Measurement) (act : Bool) (cs : Vector),
      Pane.nav (.split a b sd m act cs) dir =
        (if act then
          ((Pane.nav a dir).1, .split (Pane.nav a dir).2 b sd m act cs)
        else
          ((Pane.nav b dir).1, .split a (Pane.nav b dir).2 sd m act cs))) ∧
    (∀ (tabs : List Pane) (act : Nat) (cs : Vector),
      Pane.nav (.tabbed tabs act cs) dir = (false, .tabbed tabs act cs)) := by
  constructor
  · intro a b m act cs
    cases dir <;> cases sd <;> simp_all [axisMatches, Pane.nav]
  · intro tabs act cs
    rfl

/-- Witness for `c6_nav_mismatch_delegates` at `dir = Down`,
`sd = Horizontal`. -/
theorem c6_nav_mismatch_delegates_witness :
    axisMatches .down .horizontal = false ∧
    (Pane.nav (.split .empty .empty .horizontal (.percent (1 / 2)) true ⟨1, 1⟩)
        .down =
      ((Pane.nav .empty .down).1,
        .split (Pane.nav .empty .down).2 .empty .horizontal (.percent (1 / 2))
          true ⟨1, 1⟩)) :=
  ⟨by decide,
    by
      have h := (c6_nav_mismatch_delegates .down .horizontal (by decide)).1
        Pane.empty Pane.empty (.percent (1 / 2)) true ⟨1, 1⟩
      simpa using h⟩

/-! ## Characterization of the scroll loops -/

theorem scrollUpGo_spec (py : Int) : ∀ (f : Nat) (s : Int), 0 ≤ s →
    s.toNat ≤ f →
    scrollUpGo py f s =
      if py - s < 1 ∧ 0 < s then Max.max 0 (py - 1) else s := by
  intro f
  induction f with
  | zero =>
      intro s h0 hf
      have hs : s = 0 := by omega
      subst hs
      simp [scrollUpGo]
  | succ f ih =>
      intro s h0 hf
      simp only [scrollUpGo]
      by_cases hg : py - s < 1 ∧ 0 < s
      · rw [if_pos hg, if_pos hg, ih (s - 1) (by omega) (by omega)]
        split_ifs with h2
        · rfl
        · omega
      · rw [if_neg hg, if_neg hg]

theorem scrollUp_spec (py s : Int) (h0 : 0 ≤ s) :
    scrollUp py s =
      if py - s < 1 ∧ 0 < s then Max.max 0 (py - 1) else s :=
  scrollUpGo_spec py s.toNat s h0 le_rfl

theorem scrollDownGo_spec (py height len : Int) : ∀ (f : Nat) (s : Int),
    (len - s).toNat ≤ f →
    scrollDownGo py height len f s =
      if height - 1 < py - s ∧ s < len then Min.min len (py - height + 1)
      else s := by
  intro f
  induction f with
  | zero =>
      intro s hf
      have hs : ¬(height - 1 < py - s ∧ s < len) := by omega
      simp [scrollDownGo, hs]
  | succ f ih =>
      intro s hf
      simp only [scrollDownGo]
      by_cases hg : height - 1 < py - s ∧ s < len
      · rw [if_pos hg, if_pos hg, ih (s + 1) (by omega)]
        split_ifs with h2
        · rfl
        · omega
      · rw [if_neg hg, if_neg hg]

theorem scrollDown_spec (py height len s : Int) :
    scrollDown py height len s =
      if height - 1 < py - s ∧ s < len then Min.min len (py - height + 1)
      else s :=
  scrollDownGo_spec py height len (len - s).toNat s le_rfl

/-- Combined behaviour of the two scroll loops of one `update` call. -/
theorem scrollPipeline_spec (py s height len : Int) (h0 : 0 ≤ s)
    (hsl : s ≤ len) (hh : 2 ≤ height) (hpy0 : 0 ≤ py) (hpyl : py ≤ len - 1) :
    (py - scrollDown py height len (scrollUp py s) ≤ height - 1) ∧
    (scrollDown py height len (scrollUp py s) = 0 ∨
      1 ≤ py - scrollDown py height len (scrollUp py s)) ∧
    (1 ≤ py - s → py - s ≤ height - 1 →
      scrollDown py height len (scrollUp py s) = s) := by
  rw [scrollUp_spec py s h0]
  by_cases hg1 : py - s < 1 ∧ 0 < s
  · rw [if_pos hg1, scrollDown_spec]
    split_ifs with hg2 <;> refine ⟨by omega, by omega, by omega⟩
  · rw [if_neg hg1, scrollDown_spec]
    split_ifs with hg2 <;> refine ⟨by omega, by omega, by omega⟩

/-- `FileBuffer.load` is the identity on a cached pane: the backing file
is read at most once, and a cached pane never consults the oracle. -/
theorem fileLoad_cached (fs : String → Option (List String))
    (fb : FileBuffer) (hc : fb.cached = true) :
    FileBuffer.load fs fb = fb := by
  simp [FileBuffer.load, hc]

/-- `HexBuffer.load` is the identity on a cached pane. -/
theorem hexLoad_cached (fs : String → Option (List Nat))
    (hb : HexBuffer) (hc : hb.cached = true) :
    HexBuffer.load fs hb = hb := by
  simp [HexBuffer.load, hc]

/-- Whenever the clamp phase of `FileBuffer::update` completes (does not
panic), it changes only the cursor and scroll: content and cache flag
survive unchanged. -/
theorem fileUpdateClamps_some (size : Vector) (fb : FileBuffer) :
    ∀ fb', FileBuffer.updateClamps size fb = some fb' →
      fb'.data = fb.data ∧ fb'.cached = fb.cached := by
  intro fb' h
  simp only [FileBuffer.updateClamps, clampI?] at h
  repeat' split at h
  all_goals first
    | (simp only [Option.some.injEq] at h; subst h; exact ⟨rfl, rfl⟩)
    | simp at h

/-- Whenever the clamp phase of `HexBuffer::update` completes, content and
cache flag survive unchanged. -/
theorem hexUpdateClamps_some (size : Vector) (hb : HexBuffer) :
    ∀ hb', HexBuffer.updateClamps size hb = some hb' →
      hb'.data = hb.data ∧ hb'.cached = hb.cached := by
  intro hb' h
  simp only [HexBuffer.updateClamps, clampI?] at h
  repeat' split at h
  all_goals first
    | (simp only [Option.some.injEq] at h; subst h; exact ⟨rfl, rfl⟩)
    | simp at h

/-- On a pane that is at least 6 cells wide (so the `pos.x` clamp is
well-defined) with non-empty content (so the `pos.y` clamp is
well-defined), the clamp phase of `FileBuffer::update` completes and its
scroll is the scroll pipeline applied to the clamped cursor row. -/
theorem fileUpdateClamps_scroll (size : Vector) (fb : FileBuffer)
    (hx : 6 ≤ size.x) (hlen : 1 ≤ fb.data.length) :
    (FileBuffer.updateClamps size fb).map FileBuffer.scroll =
      some (scrollDown (clampI fb.pos.y 0 ((fb.data.length : Int) - 1))
        fb.height (fb.data.length : Int)
        (scrollUp (clampI fb.pos.y 0 ((fb.data.length : Int) - 1))
          fb.scroll)) := by
  have hlen' : (1 : Int) ≤ fb.data.length := by exact_mod_cast hlen
  have h1 : ¬size.x < 4 := by omega
  have h2 : ¬(size.x - 6 < (0 : Int)) := by omega
  have h3 : ¬((fb.data.length : Int) - 1 < 0) := by omega
  have h4 : clampI fb.pos.y 0 ((fb.data.length : Int) - 1)
      < (fb.data.length : Int) := by
    simp only [clampI]
    omega
  have h5 : ∀ s : String, ¬((s.utf8ByteSize : Int) < 0) := fun s => by omega
  simp [FileBuffer.updateClamps, clampI?, h1, h2, h3, h4, h5]

/-- The hex analogue of `fileUpdateClamps_scroll`. -/
theorem hexUpdateClamps_scroll (size : Vector) (hb : HexBuffer)
    (hx : 6 ≤ size.x) (hlen : 1 ≤ hb.data.length) :
    (HexBuffer.updateClamps size hb).map HexBuffer.scroll =
      some (scrollDown (clampI hb.pos.y 0 ((hb.data.length : Int) - 1))
        hb.height (hb.data.length : Int)
        (scrollUp (clampI hb.pos.y 0 ((hb.data.length : Int) - 1))
          hb.scroll)) := by
  have hlen' : (1 : Int) ≤ hb.data.length := by exact_mod_cast hlen
  have h1 : ¬size.x < 4 := by omega
  have h2 : ¬(size.x - 6 < (0 : Int)) := by omega
  have h3 : ¬((hb.data.length : Int) - 1 < 0) := by omega
  have h4 : clampI hb.pos.y 0 ((hb.data.length : Int) - 1)
      < (hb.data.length : Int) := by
    simp only [clampI]
    omega
  have h5 : ¬((15 : Int) < 0) := by omega
  simp [HexBuffer.updateClamps, clampI?, h1, h2, h3, h4, h5]

/-- The narrow-pane early return of the clamp phase (`if size.x < 4
{ return }` comes before every clamp). -/
theorem fileUpdateClamps_narrow (size : Vector) (fb : FileBuffer)
    (hx : size.x < 4) : FileBuffer.updateClamps size fb = some fb := by
  simp [FileBuffer.updateClamps, hx]

/-- The narrow-pane early return of the hex clamp phase. -/
theorem hexUpdateClamps_narrow (size : Vector) (hb : HexBuffer)
    (hx : size.x < 4) : HexBuffer.updateClamps size hb = some hb := by
  simp [HexBuffer.updateClamps, hx]

/-- **C7, counterexample.** One `update` call does **not** move the scroll
by exactly one line: a cached file pane with 20 lines, viewport height 5,
cursor row 10 and scroll 0 jumps to scroll 6 in a single (completed) call
— the two adjustment loops run to completion inside one `update`. -/
theorem c7_scroll_counterexample :
    (FileBuffer.update (fun _ => none) ⟨80, 40⟩
        ⟨"a", true, List.replicate 20 "", ⟨0, 10⟩, 0, .normal, 5,
          ⟨1, 1⟩⟩).map FileBuffer.scroll = some 6 ∧
    (6 : Int) ≠ 0 + 1 := by
  constructor
  · decide
  · decide

/-- **C7, amended.** For a cached File or Hex pane that is wide enough for
the cursor clamps to be defined (`size.x ≥ 6`; at widths 4–5 the source's
`pos.x.clamp(0, size.x−6)` panics), with non-empty content, a
non-degenerate viewport and in-range scroll, a single `update` call
completes and moves the scroll as far as needed — not one line per call —
so that the clamped cursor row `r` ends within the window:
`r - scroll' ≤ height - 1` and (`scroll' = 0` or `1 ≤ r - scroll'`); and
when the row is already inside `[scroll+1, scroll+height-1]` the scroll
is unchanged. -/
theorem c7_scroll_window_restored :
    (∀ (fs : String → Option (List String)) (size : Vector) (fb : FileBuffer),
      fb.cached = true → 6 ≤ size.x → 0 ≤ fb.scroll →
      fb.scroll ≤ fb.data.length → 2 ≤ fb.height → 1 ≤ fb.data.length →
      ∃ s', (FileBuffer.update fs size fb).map FileBuffer.scroll = some s' ∧
        (clampI fb.pos.y 0 ((fb.data.length : Int) - 1) - s'
          ≤ fb.height - 1) ∧
        (s' = 0 ∨
          1 ≤ clampI fb.pos.y 0 ((fb.data.length : Int) - 1) - s') ∧
        (1 ≤ clampI fb.pos.y 0 ((fb.data.length : Int) - 1) - fb.scroll →
          clampI fb.pos.y 0 ((fb.data.length : Int) - 1) - fb.scroll
            ≤ fb.height - 1 →
          s' = fb.scroll)) ∧
    (∀ (fs : String → Option (List Nat)) (size : Vector) (hb : HexBuffer),
      hb.cached = true → 6 ≤ size.x → 0 ≤ hb.scroll →
      hb.scroll ≤ hb.data.length → 2 ≤ hb.height → 1 ≤ hb.data.length →
      ∃ s', (HexBuffer.update fs size hb).map HexBuffer.scroll = some s' ∧
        (clampI hb.pos.y 0 ((hb.data.length : Int) - 1) - s'
          ≤ hb.height - 1) ∧
        (s' = 0 ∨
          1 ≤ clampI hb.pos.y 0 ((hb.data.length : Int) - 1) - s') ∧
        (1 ≤ clampI hb.pos.y 0 ((hb.data.length : Int) - 1) - hb.scroll →
          clampI hb.pos.y 0 ((hb.data.length : Int) - 1) - hb.scroll
            ≤ hb.height - 1 →
          s' = hb.scroll)) := by
  constructor
  · intro fs size fb hc hx h0 hsl hh hlen
    have hupd : FileBuffer.update fs size fb = FileBuffer.updateClamps size fb := by
      rw [FileBuffer.update, fileLoad_cached fs fb hc]
    have hscr := fileUpdateClamps_scroll size fb hx hlen
    have hlen' : (1 : Int) ≤ fb.data.length := by exact_mod_cast hlen
    have hpipe := scrollPipeline_spec
      (clampI fb.pos.y 0 ((fb.data.length : Int) - 1)) fb.scroll fb.height
      (fb.data.length : Int) h0 (by exact_mod_cast hsl) hh
      (by simp only [clampI]; omega) (by simp only [clampI]; omega)
    exact ⟨_, by rw [hupd]; exact hscr, hpipe.1, hpipe.2.1, hpipe.2.2⟩
  · intro fs size hb hc hx h0 hsl hh hlen
    have hupd : HexBuffer.update fs size hb = HexBuffer.updateClamps size hb := by
      rw [HexBuffer.update, hexLoad_cached fs hb hc]
    have hscr := hexUpdateClamps_scroll size hb hx hlen
    have hlen' : (1 : Int) ≤ hb.data.length := by exact_mod_cast hlen
    have hpipe := scrollPipeline_spec
      (clampI hb.pos.y 0 ((hb.data.length : Int) - 1)) hb.scroll hb.height
      (hb.data.length : Int) h0 (by exact_mod_cast hsl) hh
      (by simp only [clampI]; omega) (by simp only [clampI]; omega)
    exact ⟨_, by rw [hupd]; exact hscr, hpipe.1, hpipe.2.1, hpipe.2.2⟩

/-- Witness for `c7_scroll_window_restored`: the counterexample pane; the
update completes with scroll 6, and the clamped row 10 satisfies the
window invariant for height 5. -/
theorem c7_scroll_window_restored_witness :
    (FileBuffer.update (fun _ => none) ⟨80, 40⟩
        ⟨"a", true, List.replicate 20 "", ⟨0, 10⟩, 0, .normal, 5,
          ⟨1, 1⟩⟩).map FileBuffer.scroll = some 6 ∧
    (10 : Int) - 6 ≤ 5 - 1 ∧ (1 : Int) ≤ 10 - 6 := by
  obtain ⟨s', hs, -, -, -⟩ := c7_scroll_window_restored.1 (fun _ => none)
    ⟨80, 40⟩ ⟨"a", true, List.replicate 20 "", ⟨0, 10⟩, 0, .normal, 5, ⟨1, 1⟩⟩
    rfl (by decide) (by decide) (by decide) (by decide) (by decide)
  refine ⟨?_, by decide, by decide⟩
  have h7 : some s' = some (6 : Int) := by rw [← hs]; decide
  rw [hs, Option.some.inj h7]

/-- **C8, counterexample.** The Tree pane does **not** substitute a
default listing on a directory read error: `TreeBuffer::update` calls
`read_dir(&self.path).unwrap()`, so a failing read panics (modelled as
`none`) instead of returning normally — unlike the File pane, which
swallows the error and shows one empty line. -/
theorem c8_tree_update_panics_counterexample :
    TreeBuffer.update none ⟨"dir", [], false⟩ = none ∧
    (FileBuffer.update (fun _ => none) ⟨80, 40⟩
        ⟨"f", false, [], ⟨0, 0⟩, 0, .normal, 5, ⟨1, 1⟩⟩).map FileBuffer.data
      = some [""] := by
  constructor
  · rfl
  · decide

/-- **C8, amended.** File and Hex panes load their backing content exactly
once, lazily, on the first `update` call: a read error substitutes a
single default entry (one empty line for File, one zero byte for Hex) and
is itself never propagated — on any width outside the clamp-panic band
`size.x ∈ {4, 5}` (a geometry hazard unrelated to the read outcome) the
erroring update completes normally; once cached, `update` never consults
the filesystem again and leaves the content untouched.  The Tree pane
also loads lazily once, but a failing directory read panics
(`read_dir(..).unwrap()`) instead of substituting a default listing. -/
theorem c8_lazy_load_amended :
    (∀ (fs : String → Option (List String)) (size : Vector) (fb : FileBuffer),
      fb.cached = false → fs fb.filename = none →
      (size.x < 4 ∨ 6 ≤ size.x) →
      ∃ fb', FileBuffer.update fs size fb = some fb' ∧
        fb'.data = fb.data ++ [""] ∧ fb'.cached = true) ∧
    (∀ (fs : String → Option (List String)) (size : Vector) (fb : FileBuffer)
        (ls : List String),
      fb.cached = false → fs fb.filename = some ls →
      ∀ fb', FileBuffer.update fs size fb = some fb' →
        fb'.data = fb.data ++ ls ∧ fb'.cached = true) ∧
    (∀ (fs1 fs2 : String → Option (List String)) (size : Vector)
        (fb : FileBuffer), fb.cached = true →
      FileBuffer.update fs1 size fb = FileBuffer.update fs2 size fb ∧
      ∀ fb', FileBuffer.update fs1 size fb = some fb' →
        fb'.data = fb.data ∧ fb'.cached = true) ∧
    (∀ (fs : String → Option (List Nat)) (size : Vector) (hb : HexBuffer),
      hb.cached = false → fs hb.filename = none →
      (size.x < 4 ∨ 6 ≤ size.x) →
      ∃ hb', HexBuffer.update fs size hb = some hb' ∧
        hb'.data = [0] ∧ hb'.cached = true) ∧
    (∀ (fs1 fs2 : String → Option (List Nat)) (size : Vector)
        (hb : HexBuffer), hb.cached = true →
      HexBuffer.update fs1 size hb = HexBuffer.update fs2 size hb ∧
      ∀ hb', HexBuffer.update fs1 size hb = some hb' →
        hb'.data = hb.data ∧ hb'.cached = true) ∧
    (∀ tb : TreeBuffer, tb.cached = false →
      TreeBuffer.update none tb = none) ∧
    (∀ (entries : List (Bool × String)) (tb : TreeBuffer),
      tb.cached = false →
      (TreeBuffer.update (some entries) tb).isSome = true) := by
  refine ⟨?_, ?_, ?_, ?_, ?_, ?_, ?_⟩
  · intro fs size fb hc hfs hx
    have hload : FileBuffer.load fs fb
        = { fb with data := fb.data ++ [""], cached := true } := by
      simp [FileBuffer.load, hc, hfs]
    rcases hx with hx | hx
    · refine ⟨{ fb with data := fb.data ++ [""], cached := true }, ?_, by simp,
        by simp⟩
      rw [FileBuffer.update, hload, fileUpdateClamps_narrow size _ hx]
    · have hscr := fileUpdateClamps_scroll size
        { fb with data := fb.data ++ [""], cached := true } hx (by simp)
      rcases Option.map_eq_some'.mp hscr with ⟨fb', hup, -⟩
      have hfields := fileUpdateClamps_some size _ fb' hup
      refine ⟨fb', ?_, ?_, ?_⟩
      · rw [FileBuffer.update, hload]
        exact hup
      · simpa using hfields.1
      · simpa using hfields.2
  · intro fs size fb ls hc hfs fb' hupd
    have hload : FileBuffer.load fs fb
        = { fb with data := fb.data ++ ls, cached := true } := by
      simp [FileBuffer.load, hc, hfs]
    rw [FileBuffer.update, hload] at hupd
    have hfields := fileUpdateClamps_some size _ fb' hupd
    exact ⟨by simpa using hfields.1, by simpa using hfields.2⟩
  · intro fs1 fs2 size fb hc
    constructor
    · rw [FileBuffer.update, FileBuffer.update, fileLoad_cached fs1 fb hc,
        fileLoad_cached fs2 fb hc]
    · intro fb' hupd
      rw [FileBuffer.update, fileLoad_cached fs1 fb hc] at hupd
      have hfields := fileUpdateClamps_some size fb fb' hupd
      exact ⟨hfields.1, hfields.2.trans hc⟩
  · intro fs size hb hc hfs hx
    have hload : HexBuffer.load fs hb
        = { hb with data := [0], cached := true } := by
      simp [HexBuffer.load, hc, hfs]
    rcases hx with hx | hx
    · refine ⟨{ hb with data := [0], cached := true }, ?_, by simp, by simp⟩
      rw [HexBuffer.update, hload, hexUpdateClamps_narrow size _ hx]
    · have hscr := hexUpdateClamps_scroll size
        { hb with data := [0], cached := true } hx (by simp)
      rcases Option.map_eq_some'.mp hscr with ⟨hb', hup, -⟩
      have hfields := hexUpdateClamps_some size _ hb' hup
      refine ⟨hb', ?_, ?_, ?_⟩
      · rw [HexBuffer.update, hload]
        exact hup
      · simpa using hfields.1
      · simpa using hfields.2
  · intro fs1 fs2 size hb hc
    constructor
    · rw [HexBuffer.update, HexBuffer.update, hexLoad_cached fs1 hb hc,
        hexLoad_cached fs2 hb hc]
    · intro hb' hupd
      rw [HexBuffer.update, hexLoad_cached fs1 hb hc] at hupd
      have hfields := hexUpdateClamps_some size hb hb' hupd
      exact ⟨hfields.1, hfields.2.trans hc⟩
  · intro tb hc
    simp [TreeBuffer.update, hc]
  · intro entries tb hc
    simp [TreeBuffer.update, hc]

/-- Witness for `c8_lazy_load_amended`: a first `update` with a failing
read on a fresh file pane completes, appends exactly one empty line and
caches. -/
theorem c8_lazy_load_amended_witness :
    (FileBuffer.update (fun _ => none) ⟨80, 40⟩
        ⟨"f", false, [], ⟨0, 0⟩, 0, .normal, 5, ⟨1, 1⟩⟩).map FileBuffer.data
      = some ([] ++ [""]) ∧
    (FileBuffer.update (fun _ => none) ⟨80, 40⟩
        ⟨"f", false, [], ⟨0, 0⟩, 0, .normal, 5, ⟨1, 1⟩⟩).map FileBuffer.cached
      = some true := by
  obtain ⟨fb', hup, hdata, hcached⟩ := c8_lazy_load_amended.1 (fun _ => none)
    ⟨80, 40⟩ ⟨"f", false, [], ⟨0, 0⟩, 0, .normal, 5, ⟨1, 1⟩⟩ rfl rfl
    (Or.inr (by decide))
  rw [hup]
  simp [hdata, hcached]

/-! ## Weight and well-formedness bookkeeping for the close protocol -/

theorem is_empty_iff (p : Pane) : p.is_empty = true ↔ p = .empty := by
  cases p <;> simp [Pane.is_empty]

theorem size_pos (p : Pane) : 1 ≤ p.size := by
  cases p <;> (simp [Pane.size]; try omega)

theorem weight_pos (p : Pane) : 1 ≤ p.weight := by
  have := size_pos p
  simp only [Pane.weight]
  omega

theorem weight_empty : Pane.empty.weight = 1 := rfl

theorem wf_empty : Pane.wf .empty := rfl

theorem weight_split (a b : Pane) (sd : SplitDir) (m : Measurement)
    (act : Bool) (cs : Vector) :
    (Pane.split a b sd m act cs).weight = 1 + a.weight + b.weight := by
  simp only [Pane.weight, Pane.size, Pane.fullLeaves]
  omega

theorem weight_tabbed (tabs : List Pane) (act : Nat) (cs : Vector) :
    (Pane.tabbed tabs act cs).weight =
      1 + Pane.sizeList tabs + Pane.fullLeavesList tabs := by
  simp only [Pane.weight, Pane.size, Pane.fullLeaves]

theorem sizeList_pos_of_ne_nil : ∀ tabs : List Pane, tabs ≠ [] →
    1 ≤ Pane.sizeList tabs
  | [], h => absurd rfl h
  | t :: ts, _ => by
      have := size_pos t
      simp only [Pane.sizeList]
      omega

theorem length_eraseIdx_of_lt : ∀ (tabs : List Pane) (n : Nat),
    n < tabs.length → (tabs.eraseIdx n).length = tabs.length - 1
  | [], n, h => by simp at h
  | t :: ts, 0, _ => by simp
  | t :: ts, n + 1, h => by
      simp only [List.eraseIdx_cons_succ, List.length_cons]
      rw [length_eraseIdx_of_lt ts n (by simpa using h)]
      have : 1 ≤ ts.length := by
        have := (by simpa using h : n < ts.length)
        omega
      omega

theorem weightList_eraseIdx : ∀ (tabs : List Pane) (n : Nat), n < tabs.length →
    Pane.sizeList (tabs.eraseIdx n) + Pane.fullLeavesList (tabs.eraseIdx n)
        + (tabs.getD n .empty).weight
      = Pane.sizeList tabs + Pane.fullLeavesList tabs
  | [], n, h => by simp at h
  | t :: ts, 0, _ => by
      simp only [List.eraseIdx_cons_zero, List.getD_cons_zero,
        Pane.sizeList, Pane.fullLeavesList, Pane.weight]
      omega
  | t :: ts, n + 1, h => by
      have ih := weightList_eraseIdx ts n (by simpa using h)
      simp only [List.eraseIdx_cons_succ, List.getD_cons_succ,
        Pane.sizeList, Pane.fullLeavesList] at *
      omega

theorem weightList_set : ∀ (tabs : List Pane) (n : Nat) (x : Pane),
    n < tabs.length →
    Pane.sizeList (tabs.set n x) + Pane.fullLeavesList (tabs.set n x)
        + (tabs.getD n .empty).weight
      = Pane.sizeList tabs + Pane.fullLeavesList tabs + x.weight
  | [], n, x, h => by simp at h
  | t :: ts, 0, x, _ => by
      simp only [List.set_cons_zero, List.getD_cons_zero,
        Pane.sizeList, Pane.fullLeavesList, Pane.weight]
      omega
  | t :: ts, n + 1, x, h => by
      have ih := weightList_set ts n x (by simpa using h)
      simp only [List.set_cons_succ, List.getD_cons_succ,
        Pane.sizeList, Pane.fullLeavesList] at *
      omega

theorem wfbList_eraseIdx : ∀ (tabs : List Pane) (n : Nat),
    Pane.wfbList tabs = true → Pane.wfbList (tabs.eraseIdx n) = true
  | [], _, h => h
  | t :: ts, 0, h => by
      simp only [Pane.wfbList, Bool.and_eq_true] at h
      simpa using h.2
  | t :: ts, n + 1, h => by
      simp only [Pane.wfbList, Bool.and_eq_true] at h
      simp only [List.eraseIdx_cons_succ, Pane.wfbList, Bool.and_eq_true]
      exact ⟨h.1, wfbList_eraseIdx ts n h.2⟩

theorem wfbList_set : ∀ (tabs : List Pane) (n : Nat) (x : Pane),
    Pane.wfbList tabs = true → x.wfb = true →
    Pane.wfbList (tabs.set n x) = true
  | [], _, _, h, _ => h
  | t :: ts, 0, x, h, hx => by
      simp only [Pane.wfbList, Bool.and_eq_true] at h
      simp only [List.set_cons_zero, Pane.wfbList, Bool.and_eq_true]
      exact ⟨hx, h.2⟩
  | t :: ts, n + 1, x, h, hx => by
      simp only [Pane.wfbList, Bool.and_eq_true] at h
      simp only [List.set_cons_succ, Pane.wfbList, Bool.and_eq_true]
      exact ⟨h.1, wfbList_set ts n x h.2 hx⟩

/-- Definitional unfolding of `close` at a tabbed node. -/
theorem close_tabbed_eq (tabs : List Pane) (act : Nat) (cs : Vector) :
    Pane.close (.tabbed tabs act cs) =
      if (tabs.getD act .empty).is_empty then
        if (tabs.eraseIdx act).length = 0 then
          (.this, .tabbed (tabs.eraseIdx act)
            (if act ≠ 0 then act - 1 else act) cs)
        else
          (.done, .tabbed (tabs.eraseIdx act)
            (if act ≠ 0 then act - 1 else act) cs)
      else
        match Pane.closeNth tabs act with
        | (.done, c') => (.done, .tabbed (tabs.set act c') act cs)
        | (.this, _) => (.done, .tabbed (tabs.set act .empty) act cs)
        | (.replace r, _) => (.done, .tabbed (tabs.set act r) act cs) := rfl

/-- Master lemma about the close protocol on well-formed trees.  A `Done`
answer leaves a well-formed tree of strictly smaller weight; a `This`
answer means the caller discards the node (its post-state is an Empty leaf
iff the node itself was one, and any non-Empty node answering `This` has
weight ≥ 2, so replacing it by a fresh Empty leaf shrinks the tree); a
`Replace r` answer hands back a well-formed subtree of strictly smaller
weight. -/
theorem close_main : ∀ t : Pane, t.wf →
    (∀ t', Pane.close t = (.done, t') → t'.wf ∧ t'.weight < t.weight) ∧
    (∀ t', Pane.close t = (.this, t') →
      (t'.is_empty = true ↔ t = .empty) ∧ (t = .empty ∨ 2 ≤ t.weight)) ∧
    (∀ r t', Pane.close t = (.replace r, t') → r.wf ∧ r.weight < t.weight)
  | .empty, _ => by
      refine ⟨?_, ?_, ?_⟩
      · intro t' h; simp [Pane.close] at h
      · intro t' h
        simp only [Pane.close, Prod.mk.injEq, true_and] at h
        subst h
        simp [Pane.is_empty]
      · intro r t' h; simp [Pane.close] at h
  | .file fb, _ => by
      refine ⟨?_, ?_, ?_⟩
      · intro t' h; simp [Pane.close] at h
      · intro t' h
        simp only [Pane.close, Prod.mk.injEq, true_and] at h
        subst h
        simp [Pane.is_empty, Pane.weight, Pane.size, Pane.fullLeaves]
      · intro r t' h; simp [Pane.close] at h
  | .hex hb, _ => by
      refine ⟨?_, ?_, ?_⟩
      · intro t' h; simp [Pane.close] at h
      · intro t' h
        simp only [Pane.close, Prod.mk.injEq, true_and] at h
        subst h
        simp [Pane.is_empty, Pane.weight, Pane.size, Pane.fullLeaves]
      · intro r t' h; simp [Pane.close] at h
  | .tree tb, _ => by
      refine ⟨?_, ?_, ?_⟩
      · intro t' h; simp [Pane.close] at h
      · intro t' h
        simp only [Pane.close, Prod.mk.injEq, true_and] at h
        subst h
        simp [Pane.is_empty, Pane.weight, Pane.size, Pane.fullLeaves]
      · intro r t' h; simp [Pane.close] at h
  | .highlight c, _ => by
      refine ⟨?_, ?_, ?_⟩
      · intro t' h; simp [Pane.close] at h
      · intro t' h
        simp only [Pane.close, Prod.mk.injEq, true_and] at h
        subst h
        simp [Pane.is_empty, Pane.weight, Pane.size, Pane.fullLeaves]
      · intro r t' h; simp [Pane.close] at h
  | .logview, _ => by
      refine ⟨?_, ?_, ?_⟩
      · intro t' h; simp [Pane.close] at h
      · intro t' h
        simp only [Pane.close, Prod.mk.injEq, true_and] at h
        subst h
        simp [Pane.is_empty, Pane.weight, Pane.size, Pane.fullLeaves]
      · intro r t' h; simp [Pane.close] at h
  | .split a b sd m act cs, hw => by
      rw [wf_split_iff] at hw
      obtain ⟨hwa, hwb⟩ := hw
      have hwpa := weight_pos a
      have hwpb := weight_pos b
      by_cases hab : (a.is_empty && b.is_empty) = true
      · refine ⟨?_, ?_, ?_⟩
        · intro t' h; simp [Pane.close, hab] at h
        · intro t' h
          simp only [Pane.close, hab, if_true, Prod.mk.injEq, true_and] at h
          subst h
          refine ⟨by simp [Pane.is_empty], Or.inr ?_⟩
          rw [weight_split]
          omega
        · intro r t' h; simp [Pane.close, hab] at h
      · cases act with
        | true =>
            have IHa := close_main a hwa
            rcases hca : Pane.close a with ⟨k, a'⟩
            cases k with
            | done =>
                have hcl : Pane.close (.split a b sd m true cs)
                    = (.done, .split a' b sd m true cs) := by
                  simp [Pane.close, hab, hca]
                obtain ⟨hwa', hlta⟩ := IHa.1 a' hca
                refine ⟨?_, ?_, ?_⟩
                · intro t' h
                  rw [hcl] at h
                  simp only [Prod.mk.injEq, true_and] at h
                  subst h
                  refine ⟨by rw [wf_split_iff]; exact ⟨hwa', hwb⟩, ?_⟩
                  rw [weight_split, weight_split]
                  omega
                · intro t' h; rw [hcl] at h; simp at h
                · intro r t' h; rw [hcl] at h; simp at h
            | this =>
                by_cases ha' : a'.is_empty = true
                · have hcl : Pane.close (.split a b sd m true cs)
                      = (.replace b, .split a' b sd m true cs) := by
                    simp [Pane.close, hab, hca, ha']
                  refine ⟨?_, ?_, ?_⟩
                  · intro t' h; rw [hcl] at h; simp at h
                  · intro t' h; rw [hcl] at h; simp at h
                  · intro r t' h
                    rw [hcl] at h
                    simp only [Prod.mk.injEq, CloseKind.replace.injEq] at h
                    obtain ⟨h1, -⟩ := h
                    subst h1
                    refine ⟨hwb, ?_⟩
                    rw [weight_split]
                    omega
                · have hcl : Pane.close (.split a b sd m true cs)
                      = (.done, .split .empty b sd m true cs) := by
                    simp [Pane.close, hab, hca, ha']
                  have hane : a ≠ .empty := by
                    intro hc
                    rw [← (IHa.2.1 a' hca).1] at hc
                    exact ha' hc
                  have h2a : 2 ≤ a.weight := by
                    rcases (IHa.2.1 a' hca).2 with h | h
                    · exact absurd h hane
                    · exact h
                  refine ⟨?_, ?_, ?_⟩
                  · intro t' h
                    rw [hcl] at h
                    simp only [Prod.mk.injEq, true_and] at h
                    subst h
                    refine ⟨by rw [wf_split_iff]; exact ⟨wf_empty, hwb⟩, ?_⟩
                    rw [weight_split, weight_split, weight_empty]
                    omega
                  · intro t' h; rw [hcl] at h; simp at h
                  · intro r t' h; rw [hcl] at h; simp at h
            | replace r0 =>
                have hcl : Pane.close (.split a b sd m true cs)
                    = (.done, .split r0 b sd m true cs) := by
                  simp [Pane.close, hab, hca]
                obtain ⟨hwr, hltr⟩ := IHa.2.2 r0 a' hca
                refine ⟨?_, ?_, ?_⟩
                · intro t' h
                  rw [hcl] at h
                  simp only [Prod.mk.injEq, true_and] at h
                  subst h
                  refine ⟨by rw [wf_split_iff]; exact ⟨hwr, hwb⟩, ?_⟩
                  rw [weight_split, weight_split]
                  omega
                · intro t' h; rw [hcl] at h; simp at h
                · intro r t' h; rw [hcl] at h; simp at h
        | false =>
            have IHb := close_main b hwb
            rcases hcb : Pane.close b with ⟨k, b'⟩
            cases k with
            | done =>
                have hcl : Pane.close (.split a b sd m false cs)
                    = (.done, .split a b' sd m false cs) := by
                  simp [Pane.close, hab, hcb]
                obtain ⟨hwb', hltb⟩ := IHb.1 b' hcb
                refine ⟨?_, ?_, ?_⟩
                · intro t' h
                  rw [hcl] at h
                  simp only [Prod.mk.injEq, true_and] at h
                  subst h
                  refine ⟨by rw [wf_split_iff]; exact ⟨hwa, hwb'⟩, ?_⟩
                  rw [weight_split, weight_split]
                  omega
                · intro t' h; rw [hcl] at h; simp at h
                · intro r t' h; rw [hcl] at h; simp at h
            | this =>
                by_cases hb' : b'.is_empty = true
                · have hcl : Pane.close (.split a b sd m false cs)
                      = (.replace a, .split a b' sd m false cs) := by
                    simp [Pane.close, hab, hcb, hb']
                  refine ⟨?_, ?_, ?_⟩
                  · intro t' h; rw [hcl] at h; simp at h
                  · intro t' h; rw [hcl] at h; simp at h
                  · intro r t' h
                    rw [hcl] at h
                    simp only [Prod.mk.injEq, CloseKind.replace.injEq] at h
                    obtain ⟨h1, -⟩ := h
                    subst h1
                    refine ⟨hwa, ?_⟩
                    rw [weight_split]
                    omega
                · have hcl : Pane.close (.split a b sd m false cs)
                      = (.done, .split a .empty sd m false cs) := by
                    simp [Pane.close, hab, hcb, hb']
                  have hbne : b ≠ .empty := by
                    intro hc
                    rw [← (IHb.2.1 b' hcb).1] at hc
                    exact hb' hc
                  have h2b : 2 ≤ b.weight := by
                    rcases (IHb.2.1 b' hcb).2 with h | h
                    · exact absurd h hbne
                    · exact h
                  refine ⟨?_, ?_, ?_⟩
                  · intro t' h
                    rw [hcl] at h
                    simp only [Prod.mk.injEq, true_and] at h
                    subst h
                    refine ⟨by rw [wf_split_iff]; exact ⟨hwa, wf_empty⟩, ?_⟩
                    rw [weight_split, weight_split, weight_empty]
                    omega
                  · intro t' h; rw [hcl] at h; simp at h
                  · intro r t' h; rw [hcl] at h; simp at h
            | replace r0 =>
                have hcl : Pane.close (.split a b sd m false cs)
                    = (.done, .split a r0 sd m false cs) := by
                  simp [Pane.close, hab, hcb]
                obtain ⟨hwr, hltr⟩ := IHb.2.2 r0 b' hcb
                refine ⟨?_, ?_, ?_⟩
                · intro t' h
                  rw [hcl] at h
                  simp only [Prod.mk.injEq, true_and] at h
                  subst h
                  refine ⟨by rw [wf_split_iff]; exact ⟨hwa, hwr⟩, ?_⟩
                  rw [weight_split, weight_split]
                  omega
                · intro t' h; rw [hcl] at h; simp at h
                · intro r t' h; rw [hcl] at h; simp at h
  | .tabbed tabs act cs, hw => by
      rw [wf_tabbed_iff] at hw
      obtain ⟨hlen, hwl⟩ := hw
      have hne : tabs ≠ [] := by
        intro hc
        subst hc
        simp at hlen
      by_cases hce : (tabs.getD act .empty).is_empty = true
      · by_cases hl0 : (tabs.eraseIdx act).length = 0
        · have hcl : Pane.close (.tabbed tabs act cs)
              = (.this, .tabbed (tabs.eraseIdx act)
                  (if act ≠ 0 then act - 1 else act) cs) := by
            rw [close_tabbed_eq, if_pos hce, if_pos hl0]
          refine ⟨?_, ?_, ?_⟩
          · intro t' h; rw [hcl] at h; simp at h
          · intro t' h
            rw [hcl] at h
            simp only [Prod.mk.injEq, true_and] at h
            subst h
            refine ⟨by simp [Pane.is_empty], Or.inr ?_⟩
            rw [weight_tabbed]
            have := sizeList_pos_of_ne_nil tabs hne
            omega
          · intro r t' h; rw [hcl] at h; simp at h
        · have hcl : Pane.close (.tabbed tabs act cs)
              = (.done, .tabbed (tabs.eraseIdx act)
                  (if act ≠ 0 then act - 1 else act) cs) := by
            rw [close_tabbed_eq, if_pos hce, if_neg hl0]
          have hlen' := length_eraseIdx_of_lt tabs act hlen
          refine ⟨?_, ?_, ?_⟩
          · intro t' h
            rw [hcl] at h
            simp only [Prod.mk.injEq, true_and] at h
            subst h
            constructor
            · rw [wf_tabbed_iff]
              refine ⟨?_, wfbList_eraseIdx tabs act hwl⟩
              by_cases h0 : act = 0
              · subst h0
                simp only [ne_eq, not_true_eq_false, if_false]
                omega
              · simp only [ne_eq, h0, not_false_eq_true, if_true]
                omega
            · rw [weight_tabbed, weight_tabbed]
              have hwe := weightList_eraseIdx tabs act hlen
              have hgde : (tabs.getD act .empty) = .empty :=
                (is_empty_iff _).mp hce
              rw [hgde, weight_empty] at hwe
              omega
          · intro t' h; rw [hcl] at h; simp at h
          · intro r t' h; rw [hcl] at h; simp at h
      · have hrw : Pane.closeNth tabs act = Pane.close (tabs.getD act .empty) :=
          closeNth_eq tabs act hlen
        have hgne : tabs.getD act .empty ≠ .empty := by
          intro hc
          rw [hc] at hce
          exact hce rfl
        have IH := close_main (tabs.getD act .empty) (wfbList_getD tabs act hwl)
        rcases hcc : Pane.close (tabs.getD act .empty) with ⟨k, c'⟩
        cases k with
        | done =>
            have hcl : Pane.close (.tabbed tabs act cs)
                = (.done, .tabbed (tabs.set act c') act cs) := by
              rw [close_tabbed_eq, if_neg hce, hrw, hcc]
            obtain ⟨hwc', hltc⟩ := IH.1 c' hcc
            refine ⟨?_, ?_, ?_⟩
            · intro t' h
              rw [hcl] at h
              simp only [Prod.mk.injEq, true_and] at h
              subst h
              constructor
              · rw [wf_tabbed_iff]
                exact ⟨by simpa using hlen, wfbList_set tabs act c' hwl hwc'⟩
              · rw [weight_tabbed, weight_tabbed]
                have hws := weightList_set tabs act c' hlen
                omega
            · intro t' h; rw [hcl] at h; simp at h
            · intro r t' h; rw [hcl] at h; simp at h
        | this =>
            have hcl : Pane.close (.tabbed tabs act cs)
                = (.done, .tabbed (tabs.set act .empty) act cs) := by
              rw [close_tabbed_eq, if_neg hce, hrw, hcc]
            have h2c : 2 ≤ (tabs.getD act .empty).weight := by
              rcases (IH.2.1 c' hcc).2 with h | h
              · exact absurd h hgne
              · exact h
            refine ⟨?_, ?_, ?_⟩
            · intro t' h
              rw [hcl] at h
              simp only [Prod.mk.injEq, true_and] at h
              subst h
              constructor
              · rw [wf_tabbed_iff]
                exact ⟨by simpa using hlen, wfbList_set tabs act .empty hwl rfl⟩
              · rw [weight_tabbed, weight_tabbed]
                have hws := weightList_set tabs act .empty hlen
                rw [weight_empty] at hws
                omega
            · intro t' h; rw [hcl] at h; simp at h
            · intro r t' h; rw [hcl] at h; simp at h
        | replace r0 =>
            have hcl : Pane.close (.tabbed tabs act cs)
                = (.done, .tabbed (tabs.set act r0) act cs) := by
              rw [close_tabbed_eq, if_neg hce, hrw, hcc]
            obtain ⟨hwr, hltr⟩ := IH.2.2 r0 c' hcc
            refine ⟨?_, ?_, ?_⟩
            · intro t' h
              rw [hcl] at h
              simp only [Prod.mk.injEq, true_and] at h
              subst h
              constructor
              · rw [wf_tabbed_iff]
                exact ⟨by simpa using hlen, wfbList_set tabs act r0 hwl hwr⟩
              · rw [weight_tabbed, weight_tabbed]
                have hws := weightList_set tabs act r0 hlen
                omega
            · intro t' h; rw [hcl] at h; simp at h
            · intro r t' h; rw [hcl] at h; simp at h
  termination_by t => sizeOf t
  decreasing_by
    · simp_wf; omega
    · simp_wf; omega
    · have h := sizeOf_getD_lt tabs act
      simp only [List.getD, List.get?_eq_getElem?] at h
      simp_wf; omega

/-- Leaf test: every pane that is not a Split or Tabbed container. -/
def Pane.isLeaf : Pane → Bool
  | .split _ _ _ _ _ _ => false
  | .tabbed _ _ _ => false
  | _ => true

/-- One `Close` command preserves well-formedness, and strictly decreases
the weight unless the root is already the lone Empty pane. -/
theorem runClose_preserves (t : Pane) (hw : t.wf) :
    (runClose t).wf ∧ (t = .empty ∨ (runClose t).weight < t.weight) := by
  have hm := close_main t hw
  rcases hc : Pane.close t with ⟨k, t'⟩
  cases k with
  | done =>
      have hrc : runClose t = t' := by simp [runClose, hc]
      rw [hrc]
      obtain ⟨h1, h2⟩ := hm.1 t' hc
      exact ⟨h1, Or.inr h2⟩
  | this =>
      have hrc : runClose t = .empty := by simp [runClose, hc]
      rw [hrc]
      refine ⟨wf_empty, ?_⟩
      rcases (hm.2.1 t' hc).2 with h | h
      · exact Or.inl h
      · exact Or.inr (by rw [weight_empty]; omega)
  | replace r =>
      have hrc : runClose t = r := by simp [runClose, hc]
      rw [hrc]
      obtain ⟨h1, h2⟩ := hm.2.2 r t' hc
      exact ⟨h1, Or.inr h2⟩

/-- On a well-formed tree, following active-child pointers always reaches
one well-defined focused leaf. -/
theorem focusedLeaf_exists : ∀ t : Pane, t.wf →
    ∃ l, t.focusedLeaf = some l ∧ l.isLeaf = true
  | .empty, _ => ⟨.empty, rfl, rfl⟩
  | .file fb, _ => ⟨.file fb, rfl, rfl⟩
  | .hex hb, _ => ⟨.hex hb, rfl, rfl⟩
  | .tree tb, _ => ⟨.tree tb, rfl, rfl⟩
  | .highlight c, _ => ⟨.highlight c, rfl, rfl⟩
  | .logview, _ => ⟨.logview, rfl, rfl⟩
  | .split a b sd m act cs, hw => by
      rw [wf_split_iff] at hw
      cases act with
      | true =>
          obtain ⟨l, hl, hleaf⟩ := focusedLeaf_exists a hw.1
          exact ⟨l, by simpa [Pane.focusedLeaf] using hl, hleaf⟩
      | false =>
          obtain ⟨l, hl, hleaf⟩ := focusedLeaf_exists b hw.2
          exact ⟨l, by simpa [Pane.focusedLeaf] using hl, hleaf⟩
  | .tabbed tabs act cs, hw => by
      rw [wf_tabbed_iff] at hw
      obtain ⟨hlen, hwl⟩ := hw
      obtain ⟨l, hl, hleaf⟩ := focusedLeaf_exists (tabs.getD act .empty)
        (wfbList_getD tabs act hwl)
      refine ⟨l, ?_, hleaf⟩
      simp only [Pane.focusedLeaf]
      rw [focusedLeafNth_eq tabs act hlen]
      exact hl
  termination_by t => sizeOf t
  decreasing_by
    · simp_wf; omega
    · simp_wf; omega
    · have h := sizeOf_getD_lt tabs act
      simp only [List.getD, List.get?_eq_getElem?] at h
      simp_wf; omega

/-- **C2.** For every well-formed tree and every number of `Close`
commands, the resulting tree is well-formed, contains at least one pane,
and has exactly one well-defined focused leaf (reached by following
active-child pointers — `focusedLeaf` is a function, so the leaf is
unique).  Moreover every `Close` on a non-Empty root strictly decreases
the tree's weight — closing everything degrades, in finitely many steps,
to the single Empty pane, which is the fixed point of `Close`; the tree is
never null or invalid. -/
theorem c2_close_safety :
    (∀ (n : Nat) (t : Pane), t.wf →
      (runCloses n t).wf ∧
      1 ≤ (runCloses n t).size ∧
      ∃ l, (runCloses n t).focusedLeaf = some l ∧ l.isLeaf = true) ∧
    (∀ t : Pane, t.wf → t ≠ .empty → (runClose t).weight < t.weight) ∧
    runClose .empty = .empty := by
  refine ⟨?_, ?_, rfl⟩
  · intro n
    induction n with
    | zero =>
        intro t hw
        exact ⟨hw, size_pos _, focusedLeaf_exists t hw⟩
    | succ n ih =>
        intro t hw
        simp only [runCloses]
        exact ih (runClose t) (runClose_preserves t hw).1
  · intro t hw hne
    rcases (runClose_preserves t hw).2 with h | h
    · exact absurd h hne
    · exact h

/-- Witness for `c2_close_safety`: three closes on `Tabbed{[File[a]]}`
walk through `Tabbed{[Empty]}` to the single Empty pane. -/
theorem c2_close_safety_witness :
    Pane.wf (.tabbed [plainFile "a"] 0 ⟨1, 1⟩) ∧
    (runCloses 3 (.tabbed [plainFile "a"] 0 ⟨1, 1⟩)).wf ∧
    1 ≤ (runCloses 3 (.tabbed [plainFile "a"] 0 ⟨1, 1⟩)).size ∧
    runCloses 3 (.tabbed [plainFile "a"] 0 ⟨1, 1⟩) = Pane.empty :=
  ⟨by decide, (c2_close_safety.1 3 _ (by decide)).1,
    (c2_close_safety.1 3 _ (by decide)).2.1, by decide⟩

/-- **C10.** The `active < tabs.len()` invariant of Tabbed containers: the
Split(Tabbed) command creates `Tabbed{[Empty], active: 0}`, which is
well-formed; well-formedness means exactly that every active index is in
bounds (so `tabs[active]` indexing cannot go out of bounds); when the
active tab is already empty, `close` removes it, decrements a non-zero
active index (never below zero) and answers `This` exactly when the list
becomes empty (so the parent immediately replaces the container);
`close` answering `Done` hands back a well-formed tree; `set_focused`
rewrites the active slot in place (list length and active index
unchanged); `nav` changes nothing. -/
theorem c10_tabbed_active_invariant :
    (newTabbedPane = .tabbed [.empty] 0 ⟨1, 1⟩ ∧ newTabbedPane.wf) ∧
    (∀ tabs act cs, (Pane.tabbed tabs act cs).wf → act < tabs.length) ∧
    (∀ tabs act cs, (tabs.getD act .empty).is_empty = true →
      Pane.close (.tabbed tabs act cs) =
        ((if (tabs.eraseIdx act).length = 0 then CloseKind.this else .done),
          .tabbed (tabs.eraseIdx act) (if act ≠ 0 then act - 1 else act) cs)) ∧
    (∀ tabs act cs t', (Pane.tabbed tabs act cs).wf →
      Pane.close (.tabbed tabs act cs) = (.done, t') → t'.wf) ∧
    (∀ cand tabs act cs,
      ∃ tabs', (Pane.set_focused cand (.tabbed tabs act cs)).2
          = .tabbed tabs' act cs ∧ tabs'.length = tabs.length) ∧
    (∀ dir tabs act cs,
      Pane.nav (.tabbed tabs act cs) dir = (false, .tabbed tabs act cs)) := by
  refine ⟨⟨rfl, by decide⟩, ?_, ?_, ?_, ?_, ?_⟩
  · intro tabs act cs hw
    exact ((wf_tabbed_iff tabs act cs).mp hw).1
  · intro tabs act cs h
    rw [close_tabbed_eq, if_pos h]
    split_ifs <;> rfl
  · intro tabs act cs t' hw hc
    exact ((close_main _ hw).1 t' hc).1
  · intro cand tabs act cs
    exact ⟨_, rfl, by simp⟩
  · intro dir tabs act cs
    rfl

/-- Witness for `c10_tabbed_active_invariant`: closing
`Tabbed{[Empty, File[b]], active: 0}` removes the empty tab, keeps
`active = 0` over the one remaining tab, and answers `Done`. -/
theorem c10_tabbed_active_invariant_witness :
    ([Pane.empty, plainFile "b"].getD 0 .empty).is_empty = true ∧
    Pane.close (.tabbed [.empty, plainFile "b"] 0 ⟨1, 1⟩)
      = (.done, .tabbed [plainFile "b"] 0 ⟨1, 1⟩) ∧
    Pane.wf (.tabbed [.empty, plainFile "b"] 0 ⟨1, 1⟩) ∧
    (Pane.tabbed [plainFile "b"] 0 ⟨1, 1⟩).wf := by
  refine ⟨by decide, ?_, by decide, ?_⟩
  · have h := c10_tabbed_active_invariant.2.2.1 [Pane.empty, plainFile "b"]
      0 ⟨1, 1⟩ (by decide)
    simpa using h
  · exact c10_tabbed_active_invariant.2.2.2.1 [Pane.empty, plainFile "b"]
      0 ⟨1, 1⟩ _ (by decide) (by
        have h := c10_tabbed_active_invariant.2.2.1 [Pane.empty, plainFile "b"]
          0 ⟨1, 1⟩ (by decide)
        simpa using h)

end PrestoEdit
